import Mathlib

/-!
# Verification of the py_sec_dash_backend aggregation and polling core

This file gives a shallow embedding, in Lean 4, of the core of the
`py_sec_dash_backend` repository:

* `app/redis_client.py` — the aggregation store (`RedisClient.add_decision`,
  the read operations `get_latest_decisions`, `get_decision_history`,
  `get_decisions_by_country`, and the helpers `_increment_total_attacks`,
  `_increment_country_count`, `_add_unique_country`, `_add_to_history`);
* `app/crowdsec_client.py` — the polling loop `CrowdSecClient.stream_decisions`
  together with its inner credential-renewal function `get_apikey`;
* `app/api/alerts.py` and `app/api/country.py` — the thin route wrappers.

Modelling conventions:

* The Python `json` library (`json.dumps` / `json.loads`) is embedded as a
  concrete serializer `Json.render` and a concrete character-level parser
  `loads` over an inductive `Json` type covering numbers (as integers),
  strings, arrays and objects.  String escaping covers the two characters
  (`"` and `\`) that `json.dumps` must escape and that matter for the
  history-entry format; escape sequences other than `\"` and `\\` are read
  back leniently as the escaped character itself; JSON floats, booleans and
  null are outside the model (the program's payloads are flat objects of
  numbers and strings).
* Redis is modelled as explicit state (`Store`) plus, on the write path, the
  list of commands issued (`ROp`); a failure profile (`FailProfile`) says
  which individual Redis call raises, modelling a raising call as having no
  effect.
* Times are integers (seconds); the poller's sub-second sleep of 1.25 s is
  recorded in milliseconds.
* Python truthiness of the optional country value is `Json.truthy`.
-/

/-! ## Digit strings: rendering and parsing of integers

`json.dumps` renders the integers of the model with Python's decimal
notation and `int(...)` parses decimal strings; both are embedded
self-containedly below. -/

/-- The decimal digit character for `d < 10`. -/
def digitCh (d : Nat) : Char := Char.ofNat (48 + d)

/-- Is `c` a decimal digit? -/
def isDigitCh (c : Char) : Bool := 48 ≤ c.toNat && c.toNat ≤ 57

/-- Decimal digits of a natural number, most significant first. -/
def natChars (n : Nat) : List Char :=
  if _h : n < 10 then [digitCh n]
  else natChars (n / 10) ++ [digitCh (n % 10)]
decreasing_by exact Nat.div_lt_self (by omega) (by omega)

/-- Python-style decimal rendering of an integer. -/
def intChars (n : Int) : List Char :=
  if n < 0 then '-' :: natChars n.natAbs else natChars n.toNat

/-- Fold one digit into an accumulator. -/
def digitVal (c : Char) : Nat := c.toNat - 48

/-- Parse a non-empty all-digit string as a natural number. -/
def parseNat (cs : List Char) : Option Nat :=
  if cs ≠ [] ∧ cs.all isDigitCh then
    some (cs.foldl (fun a c => a * 10 + digitVal c) 0)
  else none

/-- Parse an optionally-negated decimal string, as Python `int(...)` does for
the strings this program produces (leading sign plus digits; Python's
additional whitespace/underscore tolerance is not modelled). -/
def parseInt (cs : List Char) : Option Int :=
  match cs with
  | [] => none
  | c :: rest =>
    if c = '-' then (parseNat rest).map (fun m => -(m : Int))
    else (parseNat (c :: rest)).map (fun m => (m : Int))

theorem digitCh_toNat {d : Nat} (h : d < 10) : (digitCh d).toNat = 48 + d := by
  interval_cases d <;> decide

theorem isDigitCh_digitCh {d : Nat} (h : d < 10) : isDigitCh (digitCh d) = true := by
  interval_cases d <;> decide

theorem natChars_ne_nil (n : Nat) : natChars n ≠ [] := by
  unfold natChars
  split
  · simp
  · simp

theorem natChars_all_digits (n : Nat) : (natChars n).all isDigitCh = true := by
  unfold natChars
  split
  · simp [isDigitCh_digitCh, *]
  · rename_i h
    simp only [List.all_append, Bool.and_eq_true]
    exact ⟨natChars_all_digits (n / 10), by simp [isDigitCh_digitCh (Nat.mod_lt n (by omega))]⟩
decreasing_by exact Nat.div_lt_self (by omega) (by omega)

theorem foldl_digits_append (cs : List Char) (d : Nat) (a : Nat) :
    ((cs ++ [digitCh d]).foldl (fun a c => a * 10 + digitVal c) a)
      = (cs.foldl (fun a c => a * 10 + digitVal c) a) * 10 + digitVal (digitCh d) := by
  simp [List.foldl_append]

theorem digitVal_digitCh {d : Nat} (h : d < 10) : digitVal (digitCh d) = d := by
  simp [digitVal, digitCh_toNat h]

theorem natChars_foldl (n : Nat) :
    (natChars n).foldl (fun a c => a * 10 + digitVal c) 0 = n := by
  unfold natChars
  split
  · rename_i h
    simp [digitVal_digitCh h]
  · rename_i h
    rw [foldl_digits_append, natChars_foldl (n / 10), digitVal_digitCh (Nat.mod_lt n (by omega))]
    omega
decreasing_by exact Nat.div_lt_self (by omega) (by omega)

theorem parseNat_natChars (n : Nat) : parseNat (natChars n) = some n := by
  simp [parseNat, natChars_ne_nil, natChars_all_digits, natChars_foldl]

theorem natChars_head_digit (n : Nat) :
    ∀ c cs, natChars n = c :: cs → isDigitCh c = true := by
  intro c cs h
  have := natChars_all_digits n
  rw [h] at this
  simp only [List.all_cons, Bool.and_eq_true] at this
  exact this.1

theorem parseInt_intChars (n : Int) : parseInt (intChars n) = some n := by
  by_cases hn : n < 0
  · have he : intChars n = '-' :: natChars n.natAbs := by simp [intChars, hn]
    rw [he]
    have : parseInt ('-' :: natChars n.natAbs)
        = (parseNat (natChars n.natAbs)).map (fun m => -(m : Int)) := by
      simp [parseInt]
    rw [this, parseNat_natChars]
    have : (some n.natAbs).map (fun m => -(m : Int)) = some (-(n.natAbs : Int)) := rfl
    rw [this]
    congr 1
    omega
  · have he : intChars n = natChars n.toNat := by simp [intChars, hn]
    rw [he]
    rcases h' : natChars n.toNat with _ | ⟨c, cs⟩
    · exact absurd h' (natChars_ne_nil _)
    · have hd := natChars_head_digit n.toNat c cs h'
      have hne : c ≠ '-' := by
        intro hc; subst hc; simp [isDigitCh] at hd
      simp only [parseInt]
      rw [if_neg hne, ← h', parseNat_natChars]
      show some ((n.toNat : Int)) = some n
      rw [Int.toNat_of_nonneg (by omega)]

/-! ## JSON values

The payloads this program stores are Python dicts of numbers and strings
(`crowdsec_client.py` builds `{"latitude": ..., "longitude": ..., "cn": ...,
"timestamp": ...}`).  `Json` covers numbers (as integers), strings, arrays
and objects; this is the domain over which `json.dumps` / `json.loads` are
embedded. -/

inductive Json where
  | jnum (n : Int)
  | jstr (s : String)
  | jarr (xs : List Json)
  | jobj (kvs : List (String × Json))
deriving Repr

open Json

/-- `json.dumps` escaping of one string character: the quote and the
backslash are escaped; other characters are emitted verbatim. -/
def escChar (c : Char) : List Char :=
  if c = '"' ∨ c = '\\' then ['\\', c] else [c]

/-- `json.dumps` escaping of a string body. -/
def escList (s : List Char) : List Char :=
  s.foldr (fun c acc => escChar c ++ acc) []

mutual

/-- Characters of `json.dumps(v)` with Python's default separators
`", "` and `": "`. -/
def render : Json → List Char
  | jnum n => intChars n
  | jstr s => '"' :: escList s.data ++ ['"']
  | jarr xs => '[' :: renderElems xs ++ [']']
  | jobj kvs => '{' :: renderMembers kvs ++ ['}']

/-- Rendered array elements, separated by `", "`. -/
def renderElems : List Json → List Char
  | [] => []
  | [v] => render v
  | v :: rest => render v ++ ',' :: ' ' :: renderElems rest

/-- Rendered object members, separated by `", "`, each `"key": value`. -/
def renderMembers : List (String × Json) → List Char
  | [] => []
  | [(k, v)] => '"' :: escList k.data ++ '"' :: ':' :: ' ' :: render v
  | (k, v) :: rest =>
      '"' :: escList k.data ++ '"' :: ':' :: ' ' :: render v ++ ',' :: ' ' :: renderMembers rest

end

/-- `json.dumps` as a string. -/
def dumps (v : Json) : String := String.mk (render v)

/-- Python truthiness of a JSON value (`if country:` in `add_decision`). -/
def Json.truthy : Json → Bool
  | jnum n => n != 0
  | jstr s => s != ""
  | jarr xs => !xs.isEmpty
  | jobj kvs => !kvs.isEmpty

/-- Python `dict.get(key)` on a JSON object's member list (first match). -/
def jget (kvs : List (String × Json)) (k : String) : Option Json :=
  match kvs with
  | [] => none
  | (k', v) :: rest => if k' = k then some v else jget rest k

/-- Python `str(...)` of the scalar JSON values used as decision ids
(`str(json_data[0]["id"])`); container values are rendered as JSON, a
harmless approximation since upstream ids are numbers or strings. -/
def pyStr : Json → String
  | jnum n => String.mk (intChars n)
  | jstr s => s
  | v => String.mk (render v)

/-! ## A character-level model of `json.loads`

`json.loads` is embedded as a deterministic pushdown automaton over the
characters of the input, restricted to the value grammar of `Json`
(integers, strings, arrays, objects); it is strict like Python's parser:
full input consumption, double-quoted strings, no trailing commas,
structural characters only where the grammar allows them. -/

/-- A pending container during parsing. -/
inductive Frame where
  | fArr (done : List Json)
  | fObj (done : List (String × Json)) (key : String)
deriving Repr

/-- Where the string being scanned will be delivered on its closing quote:
as an object key, or as a value. -/
inductive Ret where
  | rKey (done : List (String × Json))
  | rVal
deriving Repr

/-- Parser state between characters. -/
inductive JState where
  | sVal (k : List Frame)
  | sKey (done : List (String × Json)) (k : List Frame)
  | sColon (key : String) (done : List (String × Json)) (k : List Frame)
  | sStr (acc : List Char) (esc : Bool) (ret : Ret) (k : List Frame)
  | sNum (acc : List Char) (k : List Frame)
  | sAfter (v : Json) (k : List Frame)
deriving Repr

open JState Frame Ret

/-- JSON insignificant whitespace. -/
def isWsCh (c : Char) : Bool := c = ' ' || c = '\t' || c = '\n' || c = '\r'

/-- Can `c` start a number token? -/
def numStart (c : Char) : Bool := isDigitCh c || c = '-'

/-- A finished number token as a value. -/
def completeNum (acc : List Char) : Option Json := (parseInt acc).map jnum

/-- Structural continuation after a complete value `v`, for a
non-whitespace character. -/
def stepAfterStruct (v : Json) : List Frame → Char → Option JState
  | fArr done :: k', c =>
    if c = ',' then some (sVal (fArr (done ++ [v]) :: k'))
    else if c = ']' then some (sAfter (jarr (done ++ [v])) k')
    else none
  | fObj done key :: k', c =>
    if c = ',' then some (sKey (done ++ [(key, v)]) k')
    else if c = '}' then some (sAfter (jobj (done ++ [(key, v)])) k')
    else none
  | [], _ => none

/-- Transition on `c` from the state just after a complete value `v` with
pending containers `k`. -/
def stepAfterChar (v : Json) (k : List Frame) (c : Char) : Option JState :=
  if isWsCh c then some (sAfter v k) else stepAfterStruct v k c

/-- Closing bracket directly inside an array opener (the only place `]`
is legal in the value-start state). -/
def arrClose : List Frame → Option JState
  | fArr [] :: k' => some (sAfter (jarr []) k')
  | _ => none

/-- State after the closing quote of a string. -/
def strClose (acc : List Char) : Ret → List Frame → JState
  | rKey done, k => sColon (String.mk acc) done k
  | rVal, k => sAfter (jstr (String.mk acc)) k

/-- One character of `json.loads`. -/
def stepChar : JState → Char → Option JState
  | sVal k, c =>
    if isWsCh c then some (sVal k)
    else if c = '"' then some (sStr [] false rVal k)
    else if c = '{' then some (sKey [] k)
    else if c = '[' then some (sVal (fArr [] :: k))
    else if c = ']' then arrClose k
    else if numStart c then some (sNum [c] k)
    else none
  | sKey done k, c =>
    if isWsCh c then some (sKey done k)
    else if c = '"' then some (sStr [] false (rKey done) k)
    else if c = '}' then (if done.isEmpty then some (sAfter (jobj []) k) else none)
    else none
  | sColon key done k, c =>
    if isWsCh c then some (sColon key done k)
    else if c = ':' then some (sVal (fObj done key :: k))
    else none
  | sStr acc esc ret k, c =>
    if esc then some (sStr (acc ++ [c]) false ret k)
    else if c = '\\' then some (sStr acc true ret k)
    else if c = '"' then some (strClose acc ret k)
    else some (sStr (acc ++ [c]) false ret k)
  | sNum acc k, c =>
    if isDigitCh c then some (sNum (acc ++ [c]) k)
    else (completeNum acc).bind (fun v => stepAfterChar v k c)
  | sAfter v k, c => stepAfterChar v k c

/-- Feed a list of characters through the automaton. -/
def feedO (st : Option JState) (cs : List Char) : Option JState :=
  cs.foldl (fun s c => s.bind (fun st => stepChar st c)) st

/-- Acceptance at end of input. -/
def finalize (st : Option JState) : Option Json :=
  match st with
  | some (sAfter v []) => some v
  | some (sNum acc []) => completeNum acc
  | _ => none

/-- `json.loads` on a character list. -/
def loadsL (cs : List Char) : Option Json := finalize (feedO (some (sVal [])) cs)

/-- `json.loads`. -/
def loads (s : String) : Option Json := loadsL s.data

theorem feedO_append (st : Option JState) (a b : List Char) :
    feedO st (a ++ b) = feedO (feedO st a) b := by
  simp [feedO, List.foldl_append]

theorem feedO_none (cs : List Char) : feedO none cs = none := by
  induction cs with
  | nil => rfl
  | cons c cs ih => simpa [feedO] using ih

theorem feedO_cons (st : JState) (c : Char) (cs : List Char) :
    feedO (some st) (c :: cs) = feedO (stepChar st c) cs := by
  simp [feedO]

/-! ### Feeding rendered output through the parser -/

theorem ne_of_toNat_ne {c d : Char} (h : c.toNat ≠ d.toNat) : c ≠ d :=
  fun hc => h (by rw [hc])

theorem digit_toNat_bounds {c : Char} (h : isDigitCh c = true) :
    48 ≤ c.toNat ∧ c.toNat ≤ 57 := by
  simpa [isDigitCh, Bool.and_eq_true, decide_eq_true_eq] using h

theorem digit_ne {c d : Char} (h : isDigitCh c = true) (hd : d.toNat < 48 ∨ 57 < d.toNat) :
    c ≠ d := by
  have hb := digit_toNat_bounds h
  exact ne_of_toNat_ne (by omega)

theorem digit_not_ws {c : Char} (h : isDigitCh c = true) : isWsCh c = false := by
  have h1 : c ≠ ' ' := digit_ne h (by left; decide)
  have h2 : c ≠ '\t' := digit_ne h (by left; decide)
  have h3 : c ≠ '\n' := digit_ne h (by left; decide)
  have h4 : c ≠ '\r' := digit_ne h (by left; decide)
  simp [isWsCh, h1, h2, h3, h4]

theorem stepChar_sVal_digit {c : Char} (h : isDigitCh c = true) (k : List Frame) :
    stepChar (sVal k) c = some (sNum [c] k) := by
  have h1 := digit_not_ws h
  have h2 : c ≠ '"' := digit_ne h (by left; decide)
  have h3 : c ≠ '{' := digit_ne h (by right; decide)
  have h4 : c ≠ '[' := digit_ne h (by right; decide)
  have h5 : c ≠ ']' := digit_ne h (by right; decide)
  simp [stepChar, h1, h2, h3, h4, h5, numStart, h]

theorem stepChar_sNum_digit {c : Char} (h : isDigitCh c = true) (acc : List Char)
    (k : List Frame) : stepChar (sNum acc k) c = some (sNum (acc ++ [c]) k) := by
  simp [stepChar, h]

theorem feed_digits {ds : List Char} (h : ds.all isDigitCh = true) :
    ∀ acc k, feedO (some (sNum acc k)) ds = some (sNum (acc ++ ds) k) := by
  induction ds with
  | nil => intro acc k; simp [feedO]
  | cons d ds ih =>
    intro acc k
    simp only [List.all_cons, Bool.and_eq_true] at h
    rw [feedO_cons, stepChar_sNum_digit h.1, ih h.2]
    simp

theorem stepChar_sStr_plain {c : Char} (hq : c ≠ '"') (hb : c ≠ '\\') (acc ret k) :
    stepChar (sStr acc false ret k) c = some (sStr (acc ++ [c]) false ret k) := by
  simp [stepChar, hq, hb]

theorem feed_escList (s : List Char) :
    ∀ acc ret k, feedO (some (sStr acc false ret k)) (escList s)
      = some (sStr (acc ++ s) false ret k) := by
  induction s with
  | nil => intro acc ret k; simp [feedO, escList]
  | cons c s ih =>
    intro acc ret k
    have hstep : escList (c :: s) = escChar c ++ escList s := by
      simp [escList]
    rw [hstep, feedO_append]
    by_cases hc : c = '"' ∨ c = '\\'
    · have he : escChar c = ['\\', c] := by simp [escChar, hc]
      rw [he]
      have h1 : feedO (some (sStr acc false ret k)) ['\\', c]
          = some (sStr (acc ++ [c]) false ret k) := by
        simp [feedO, stepChar]
      rw [h1, ih]
      simp
    · have he : escChar c = [c] := by simp [escChar, hc]
      push_neg at hc
      rw [he]
      have h1 : feedO (some (sStr acc false ret k)) [c]
          = some (sStr (acc ++ [c]) false ret k) := by
        simp [feedO, stepChar_sStr_plain hc.1 hc.2]
      rw [h1, ih]
      simp

/-- After a full value has been fed from `sVal k`, the parser is in this
state: numbers wait for a delimiting character, all other values are
complete. -/
def numOrAfter (v : Json) (k : List Frame) : JState :=
  match v with
  | jnum n => sNum (intChars n) k
  | _ => sAfter v k

/-- Characters that legally follow (and thereby terminate) a number token
inside rendered output. -/
def delimCh (c : Char) : Bool := c = ',' || c = '}' || c = ']' || isWsCh c

theorem delim_not_digit {c : Char} (h : delimCh c = true) : isDigitCh c = false := by
  simp only [delimCh, isWsCh, Bool.or_eq_true, decide_eq_true_eq] at h
  rcases h with ((h | h) | h) | (((h | h) | h) | h) <;> (subst h; decide)

theorem stepChar_numOrAfter {c : Char} (h : delimCh c = true) (v : Json) (k : List Frame) :
    stepChar (numOrAfter v k) c = stepAfterChar v k c := by
  cases v with
  | jnum n =>
    simp [numOrAfter, stepChar, delim_not_digit h, completeNum, parseInt_intChars]
  | jstr s => rfl
  | jarr xs => rfl
  | jobj kvs => rfl

mutual

theorem feed_render (v : Json) (k : List Frame) :
    feedO (some (sVal k)) (render v) = some (numOrAfter v k) := by
  match v with
  | jnum n =>
    show feedO (some (sVal k)) (intChars n) = some (sNum (intChars n) k)
    by_cases hn : n < 0
    · have he : intChars n = '-' :: natChars n.natAbs := by simp [intChars, hn]
      rw [he, feedO_cons]
      have hs : stepChar (sVal k) '-' = some (sNum ['-'] k) := rfl
      rw [hs, feed_digits (natChars_all_digits _)]
      rfl
    · have he : intChars n = natChars n.toNat := by simp [intChars, hn]
      rw [he]
      rcases hnc : natChars n.toNat with _ | ⟨d, ds⟩
      · exact absurd hnc (natChars_ne_nil _)
      · have hall := natChars_all_digits n.toNat
        rw [hnc] at hall
        simp only [List.all_cons, Bool.and_eq_true] at hall
        rw [feedO_cons, stepChar_sVal_digit hall.1, feed_digits hall.2]
        simp
  | jstr s =>
    show feedO (some (sVal k)) ('"' :: (escList s.data ++ ['"'])) = some (sAfter (jstr s) k)
    rw [feedO_cons]
    have h1 : stepChar (sVal k) '"' = some (sStr [] false rVal k) := rfl
    rw [h1, feedO_append, feed_escList]
    simp [feedO, stepChar]
    rfl
  | jarr [] =>
    show feedO (some (sVal k)) ('[' :: renderElems [] ++ [']'])
      = some (sAfter (jarr []) k)
    rfl
  | jarr (x :: xs) =>
    show feedO (some (sVal k)) ('[' :: (renderElems (x :: xs) ++ [']']))
      = some (sAfter (jarr (x :: xs)) k)
    rw [feedO_cons]
    have h1 : stepChar (sVal k) '[' = some (sVal (fArr [] :: k)) := rfl
    rw [h1, feed_renderElems x xs [] k]
    rfl
  | jobj [] =>
    show feedO (some (sVal k)) ('{' :: renderMembers [] ++ ['}'])
      = some (sAfter (jobj []) k)
    rfl
  | jobj ((key, v) :: ms) =>
    show feedO (some (sVal k)) ('{' :: (renderMembers ((key, v) :: ms) ++ ['}']))
      = some (sAfter (jobj ((key, v) :: ms)) k)
    rw [feedO_cons]
    have h1 : stepChar (sVal k) '{' = some (sKey [] k) := rfl
    rw [h1, feed_renderMembers key v ms [] k]
    rfl
termination_by sizeOf v

theorem feed_renderElems (x : Json) (xs : List Json) (done : List Json) (k : List Frame) :
    feedO (some (sVal (fArr done :: k))) (renderElems (x :: xs) ++ [']'])
      = some (sAfter (jarr (done ++ x :: xs)) k) := by
  match xs with
  | [] =>
    show feedO (some (sVal (fArr done :: k))) (render x ++ [']'])
      = some (sAfter (jarr (done ++ [x])) k)
    rw [feedO_append, feed_render x (fArr done :: k)]
    have h2 : feedO (some (numOrAfter x (fArr done :: k))) [']']
        = stepChar (numOrAfter x (fArr done :: k)) ']' := by
      simp [feedO]
    rw [h2, stepChar_numOrAfter (by decide)]
    rfl
  | y :: ys =>
    show feedO (some (sVal (fArr done :: k)))
        ((render x ++ ',' :: ' ' :: renderElems (y :: ys)) ++ [']'])
      = some (sAfter (jarr (done ++ x :: y :: ys)) k)
    have hre : (render x ++ ',' :: ' ' :: renderElems (y :: ys)) ++ [']']
        = render x ++ (',' :: ' ' :: (renderElems (y :: ys) ++ [']'])) := by simp
    rw [hre, feedO_append, feed_render x (fArr done :: k), feedO_cons,
      stepChar_numOrAfter (by decide)]
    have h3 : stepAfterChar x (fArr done :: k) ','
        = some (sVal (fArr (done ++ [x]) :: k)) := rfl
    rw [h3, feedO_cons]
    have h4 : stepChar (sVal (fArr (done ++ [x]) :: k)) ' '
        = some (sVal (fArr (done ++ [x]) :: k)) := rfl
    rw [h4, feed_renderElems y ys (done ++ [x]) k]
    simp
termination_by sizeOf x + sizeOf xs

theorem feed_renderMembers (key : String) (v : Json) (ms : List (String × Json))
    (done : List (String × Json)) (k : List Frame) :
    feedO (some (sKey done k)) (renderMembers ((key, v) :: ms) ++ ['}'])
      = some (sAfter (jobj (done ++ (key, v) :: ms)) k) := by
  match ms with
  | [] =>
    show feedO (some (sKey done k))
        (('"' :: escList key.data ++ '"' :: ':' :: ' ' :: render v) ++ ['}'])
      = some (sAfter (jobj (done ++ [(key, v)])) k)
    have hre : ('"' :: escList key.data ++ '"' :: ':' :: ' ' :: render v) ++ ['}']
        = '"' :: (escList key.data ++ ('"' :: ':' :: ' ' :: (render v ++ ['}'])))
      := by simp
    rw [hre, feedO_cons]
    have h1 : stepChar (sKey done k) '"' = some (sStr [] false (rKey done) k) := rfl
    rw [h1, feedO_append, feed_escList, feedO_cons]
    have h2 : stepChar (sStr ([] ++ key.data) false (rKey done) k) '"'
        = some (sColon key done k) := rfl
    rw [h2, feedO_cons]
    have h3 : stepChar (sColon key done k) ':' = some (sVal (fObj done key :: k)) := rfl
    rw [h3, feedO_cons]
    have h4 : stepChar (sVal (fObj done key :: k)) ' '
        = some (sVal (fObj done key :: k)) := rfl
    rw [h4, feedO_append, feed_render v (fObj done key :: k)]
    have h5 : feedO (some (numOrAfter v (fObj done key :: k))) ['}']
        = stepChar (numOrAfter v (fObj done key :: k)) '}' := by
      simp [feedO]
    rw [h5, stepChar_numOrAfter (by decide)]
    rfl
  | (key2, v2) :: ms2 =>
    show feedO (some (sKey done k))
        (('"' :: escList key.data ++ '"' :: ':' :: ' ' :: render v
            ++ ',' :: ' ' :: renderMembers ((key2, v2) :: ms2)) ++ ['}'])
      = some (sAfter (jobj (done ++ (key, v) :: (key2, v2) :: ms2)) k)
    have hre : ('"' :: escList key.data ++ '"' :: ':' :: ' ' :: render v
          ++ ',' :: ' ' :: renderMembers ((key2, v2) :: ms2)) ++ ['}']
        = '"' :: (escList key.data ++ ('"' :: ':' :: ' ' ::
            (render v ++ (',' :: ' ' :: (renderMembers ((key2, v2) :: ms2) ++ ['}'])))))
      := by simp
    rw [hre, feedO_cons]
    have h1 : stepChar (sKey done k) '"' = some (sStr [] false (rKey done) k) := rfl
    rw [h1, feedO_append, feed_escList, feedO_cons]
    have h2 : stepChar (sStr ([] ++ key.data) false (rKey done) k) '"'
        = some (sColon key done k) := rfl
    rw [h2, feedO_cons]
    have h3 : stepChar (sColon key done k) ':' = some (sVal (fObj done key :: k)) := rfl
    rw [h3, feedO_cons]
    have h4 : stepChar (sVal (fObj done key :: k)) ' '
        = some (sVal (fObj done key :: k)) := rfl
    rw [h4, feedO_append, feed_render v (fObj done key :: k), feedO_cons,
      stepChar_numOrAfter (by decide)]
    have h5 : stepAfterChar v (fObj done key :: k) ','
        = some (sKey (done ++ [(key, v)]) k) := rfl
    rw [h5, feedO_cons]
    have h6 : stepChar (sKey (done ++ [(key, v)]) k) ' '
        = some (sKey (done ++ [(key, v)]) k) := rfl
    rw [h6, feed_renderMembers key2 v2 ms2 (done ++ [(key, v)]) k]
    simp
termination_by sizeOf v + sizeOf ms

end

/-- Round trip at character level: the parser recovers exactly the value
that `json.dumps` rendered. -/
theorem loadsL_render (v : Json) : loadsL (render v) = some v := by
  unfold loadsL
  rw [feed_render v []]
  cases v with
  | jnum n => simp [finalize, numOrAfter, completeNum, parseInt_intChars]
  | jstr s => rfl
  | jarr xs => rfl
  | jobj kvs => rfl

/-- `json.loads(json.dumps(v)) == v` over the embedded domain. -/
theorem loads_dumps (v : Json) : loads (dumps v) = some v := loadsL_render v

/-! ### The string-context projection

To show that a history entry whose id contains `':'` can never be parsed
back, the automaton is projected onto the three-state tracker
`outside-string / inside-string / inside-string-after-backslash`.  The
projection is a simulation: any surviving run of the full parser projects
to a surviving run of the tracker, and rendered object output fed to the
tracker from the inside-string state either dies or stays inside the
string — so the full parser can never accept. -/

inductive PState where
  | pout
  | pin (esc : Bool)
deriving Repr, DecidableEq

open PState

/-- Tracker transition. -/
def pstep : PState → Char → Option PState
  | pout, c => if c = '"' then some (pin false) else if c = '\\' then none else some pout
  | pin false, c =>
      if c = '"' then some pout
      else if c = '\\' then some (pin true) else some (pin false)
  | pin true, _ => some (pin false)

/-- Feed a character list through the tracker. -/
def pfeedO (st : Option PState) (cs : List Char) : Option PState :=
  cs.foldl (fun s c => s.bind (fun st => pstep st c)) st

/-- Projection of parser states onto the tracker. -/
def projS : JState → PState
  | sStr _ e _ _ => pin e
  | _ => pout

theorem pfeedO_append (st : Option PState) (a b : List Char) :
    pfeedO st (a ++ b) = pfeedO (pfeedO st a) b := by
  simp [pfeedO, List.foldl_append]

theorem pfeedO_none (cs : List Char) : pfeedO none cs = none := by
  induction cs with
  | nil => rfl
  | cons c cs ih => simpa [pfeedO] using ih

theorem pfeedO_cons (st : PState) (c : Char) (cs : List Char) :
    pfeedO (some st) (c :: cs) = pfeedO (pstep st c) cs := by
  simp [pfeedO]

theorem pstep_pout_plain {c : Char} (h1 : c ≠ '"') (h2 : c ≠ '\\') :
    pstep pout c = some pout := by
  simp [pstep, h1, h2]

theorem pstep_pin_plain {c : Char} (h1 : c ≠ '"') (h2 : c ≠ '\\') :
    pstep (pin false) c = some (pin false) := by
  simp [pstep, h1, h2]

theorem ws_ne_special {c : Char} (h : isWsCh c = true) : c ≠ '"' ∧ c ≠ '\\' := by
  simp only [isWsCh, Bool.or_eq_true, decide_eq_true_eq] at h
  rcases h with ((h | h) | h) | h <;> (subst h; exact ⟨by decide, by decide⟩)

theorem digit_ne_special {c : Char} (h : isDigitCh c = true) : c ≠ '"' ∧ c ≠ '\\' :=
  ⟨digit_ne h (by left; decide), digit_ne h (by right; decide)⟩

theorem numStart_ne_special {c : Char} (h : numStart c = true) : c ≠ '"' ∧ c ≠ '\\' := by
  simp only [numStart, Bool.or_eq_true, decide_eq_true_eq] at h
  rcases h with h | h
  · exact digit_ne_special h
  · subst h; exact ⟨by decide, by decide⟩

theorem stepAfterStruct_sim (v : Json) (k : List Frame) (c : Char) (st' : JState)
    (h : stepAfterStruct v k c = some st') : pstep pout c = some (projS st') := by
  cases k with
  | nil => cases h
  | cons f k' =>
    cases f with
    | fArr done =>
      simp only [stepAfterStruct] at h
      by_cases hc : c = ','
      · subst hc; cases h; rfl
      · rw [if_neg hc] at h
        by_cases hc2 : c = ']'
        · subst hc2; cases h; rfl
        · rw [if_neg hc2] at h; cases h
    | fObj done key =>
      simp only [stepAfterStruct] at h
      by_cases hc : c = ','
      · subst hc; cases h; rfl
      · rw [if_neg hc] at h
        by_cases hc2 : c = '}'
        · subst hc2; cases h; rfl
        · rw [if_neg hc2] at h; cases h

theorem stepAfterChar_sim (v : Json) (k : List Frame) (c : Char) (st' : JState)
    (h : stepAfterChar v k c = some st') : pstep pout c = some (projS st') := by
  unfold stepAfterChar at h
  by_cases hws : isWsCh c = true
  · rw [if_pos hws] at h
    cases h
    obtain ⟨h1, h2⟩ := ws_ne_special hws
    exact pstep_pout_plain h1 h2
  · rw [if_neg hws] at h
    exact stepAfterStruct_sim v k c st' h

theorem stepChar_sim (st : JState) (c : Char) (st' : JState)
    (h : stepChar st c = some st') : pstep (projS st) c = some (projS st') := by
  cases st with
  | sVal k =>
    simp only [stepChar] at h
    by_cases h1 : isWsCh c = true
    · rw [if_pos h1] at h; cases h
      obtain ⟨ha, hb⟩ := ws_ne_special h1
      exact pstep_pout_plain ha hb
    · rw [if_neg h1] at h
      by_cases h2 : c = '"'
      · subst h2; cases h; rfl
      · rw [if_neg h2] at h
        by_cases h3 : c = '{'
        · subst h3; cases h; rfl
        · rw [if_neg h3] at h
          by_cases h4 : c = '['
          · subst h4; cases h; rfl
          · rw [if_neg h4] at h
            by_cases h5 : c = ']'
            · subst h5
              rw [if_pos rfl] at h
              cases k with
              | nil => cases h
              | cons f k' =>
                cases f with
                | fArr done =>
                  cases done with
                  | nil => cases h; rfl
                  | cons a as => cases h
                | fObj done key => cases h
            · rw [if_neg h5] at h
              by_cases h6 : numStart c = true
              · rw [if_pos h6] at h; cases h
                obtain ⟨ha, hb⟩ := numStart_ne_special h6
                exact pstep_pout_plain ha hb
              · rw [if_neg h6] at h; cases h
  | sKey done k =>
    simp only [stepChar] at h
    by_cases h1 : isWsCh c = true
    · rw [if_pos h1] at h; cases h
      obtain ⟨ha, hb⟩ := ws_ne_special h1
      exact pstep_pout_plain ha hb
    · rw [if_neg h1] at h
      by_cases h2 : c = '"'
      · subst h2; cases h; rfl
      · rw [if_neg h2] at h
        by_cases h3 : c = '}'
        · subst h3
          rw [if_pos rfl] at h
          cases done with
          | nil => cases h; rfl
          | cons a as => cases h
        · rw [if_neg h3] at h; cases h
  | sColon key done k =>
    simp only [stepChar] at h
    by_cases h1 : isWsCh c = true
    · rw [if_pos h1] at h; cases h
      obtain ⟨ha, hb⟩ := ws_ne_special h1
      exact pstep_pout_plain ha hb
    · rw [if_neg h1] at h
      by_cases h2 : c = ':'
      · subst h2; cases h; rfl
      · rw [if_neg h2] at h; cases h
  | sStr acc esc ret k =>
    simp only [stepChar] at h
    cases esc with
    | true =>
      rw [if_pos rfl] at h
      cases h; rfl
    | false =>
      rw [if_neg (by simp)] at h
      by_cases hb : c = '\\'
      · subst hb; cases h; rfl
      · rw [if_neg hb] at h
        by_cases hq : c = '"'
        · subst hq
          rw [if_pos rfl] at h
          cases h
          cases ret with
          | rKey done => rfl
          | rVal => rfl
        · rw [if_neg hq] at h
          cases h
          exact pstep_pin_plain hq hb
  | sNum acc k =>
    simp only [stepChar] at h
    by_cases h1 : isDigitCh c = true
    · rw [if_pos h1] at h; cases h
      obtain ⟨ha, hb⟩ := digit_ne_special h1
      exact pstep_pout_plain ha hb
    · rw [if_neg h1] at h
      cases hc : completeNum acc with
      | none => rw [hc] at h; cases h
      | some v =>
        rw [hc] at h
        exact stepAfterChar_sim v k c st' h
  | sAfter v k => exact stepAfterChar_sim v k c st' h

theorem feedO_sim (cs : List Char) :
    ∀ (st st' : JState), feedO (some st) cs = some st'
      → pfeedO (some (projS st)) cs = some (projS st') := by
  induction cs with
  | nil => intro st st' h; cases h; rfl
  | cons c cs ih =>
    intro st st' h
    rw [feedO_cons] at h
    rw [pfeedO_cons]
    cases hs : stepChar st c with
    | none => rw [hs, feedO_none] at h; cases h
    | some st₁ =>
      rw [hs] at h
      rw [stepChar_sim st c st₁ hs]
      exact ih st₁ st' h

/-! ### Tracker behaviour on rendered output -/

/-- The tracker either has died or sits in state `p`. -/
def subP (a : Option PState) (p : PState) : Prop := a = none ∨ a = some p

theorem pfeedO_single (p : PState) (c : Char) : pfeedO (some p) [c] = pstep p c := by
  simp [pfeedO]

theorem subP_chain {x y : List Char} {p₀ p₁ p₂ : PState}
    (h1 : subP (pfeedO (some p₀) x) p₁) (h2 : subP (pfeedO (some p₁) y) p₂) :
    subP (pfeedO (some p₀) (x ++ y)) p₂ := by
  rw [pfeedO_append]
  rcases h1 with h1 | h1
  · rw [h1, pfeedO_none]; exact Or.inl rfl
  · rw [h1]; exact h2

theorem subP_cons {c : Char} {p₀ p₁ p₂ : PState} {y : List Char}
    (h0 : pstep p₀ c = some p₁) (h : subP (pfeedO (some p₁) y) p₂) :
    subP (pfeedO (some p₀) (c :: y)) p₂ := by
  rw [pfeedO_cons, h0]; exact h

theorem pfeed_plain {cs : List Char} (h : ∀ c ∈ cs, c ≠ '"' ∧ c ≠ '\\') (p : PState)
    (hp : p = pout ∨ p = pin false) : pfeedO (some p) cs = some p := by
  induction cs with
  | nil => rfl
  | cons c cs ih =>
    have hc := h c (by simp)
    have hstep : pstep p c = some p := by
      rcases hp with rfl | rfl
      · exact pstep_pout_plain hc.1 hc.2
      · exact pstep_pin_plain hc.1 hc.2
    rw [pfeedO_cons, hstep]
    exact ih (fun c hm => h c (by simp [hm]))

theorem intChars_plain (n : Int) : ∀ c ∈ intChars n, c ≠ '"' ∧ c ≠ '\\' := by
  intro c hc
  unfold intChars at hc
  have hdig : ∀ c ∈ natChars n.natAbs, c ≠ '"' ∧ c ≠ '\\' := by
    intro d hd
    have hall := natChars_all_digits n.natAbs
    rw [List.all_eq_true] at hall
    exact digit_ne_special (hall d hd)
  have hdig2 : ∀ c ∈ natChars n.toNat, c ≠ '"' ∧ c ≠ '\\' := by
    intro d hd
    have hall := natChars_all_digits n.toNat
    rw [List.all_eq_true] at hall
    exact digit_ne_special (hall d hd)
  split at hc
  · rcases List.mem_cons.mp hc with rfl | hm
    · exact ⟨by decide, by decide⟩
    · exact hdig c hm
  · exact hdig2 c hc

theorem pfeed_escList_pin (s : List Char) :
    pfeedO (some (pin false)) (escList s) = some (pin false) := by
  induction s with
  | nil => rfl
  | cons c s ih =>
    have hstep : escList (c :: s) = escChar c ++ escList s := by simp [escList]
    rw [hstep, pfeedO_append]
    by_cases hc : c = '"' ∨ c = '\\'
    · have he : escChar c = ['\\', c] := by simp [escChar, hc]
      rw [he]
      have h1 : pfeedO (some (pin false)) ['\\', c] = some (pin false) := by
        simp [pfeedO, pstep]
      rw [h1]; exact ih
    · have he : escChar c = [c] := by simp [escChar, hc]
      push_neg at hc
      rw [he, pfeedO_single, pstep_pin_plain hc.1 hc.2]
      exact ih

theorem pfeed_escList_pout (s : List Char) :
    subP (pfeedO (some pout) (escList s)) pout := by
  induction s with
  | nil => exact Or.inr rfl
  | cons c s ih =>
    have hstep : escList (c :: s) = escChar c ++ escList s := by simp [escList]
    rw [hstep]
    by_cases hc : c = '"' ∨ c = '\\'
    · have he : escChar c = ['\\', c] := by simp [escChar, hc]
      rw [he]
      have h1 : pfeedO (some pout) ('\\' :: c :: escList s) = none := by
        rw [pfeedO_cons]
        have : pstep pout '\\' = none := rfl
        rw [this, pfeedO_none]
      rw [show ('\\' :: c :: escList s : List Char) = ['\\', c] ++ escList s from rfl] at h1
      rw [h1]
      exact Or.inl rfl
    · have he : escChar c = [c] := by simp [escChar, hc]
      push_neg at hc
      rw [he]
      exact subP_cons (pstep_pout_plain hc.1 hc.2) ih

mutual

theorem pfeed_render (v : Json) (p : PState) (hp : p = pout ∨ p = pin false) :
    subP (pfeedO (some p) (render v)) p := by
  match v with
  | jnum n =>
    show subP (pfeedO (some p) (intChars n)) p
    rw [pfeed_plain (intChars_plain n) p hp]
    exact Or.inr rfl
  | jstr s =>
    show subP (pfeedO (some p) ('"' :: (escList s.data ++ ['"']))) p
    rcases hp with rfl | rfl
    · refine subP_cons (show pstep pout '"' = some (pin false) from rfl) ?_
      have h1 : subP (pfeedO (some (pin false)) (escList s.data)) (pin false) := by
        rw [pfeed_escList_pin]; exact Or.inr rfl
      have h2 : subP (pfeedO (some (pin false)) ['"']) pout := by
        rw [pfeedO_single]; exact Or.inr rfl
      exact subP_chain h1 h2
    · refine subP_cons (show pstep (pin false) '"' = some pout from rfl) ?_
      have h2 : subP (pfeedO (some pout) ['"']) (pin false) := by
        rw [pfeedO_single]; exact Or.inr rfl
      exact subP_chain (pfeed_escList_pout s.data) h2
  | jarr [] =>
    show subP (pfeedO (some p) ('[' :: (renderElems [] ++ [']']))) p
    rcases hp with rfl | rfl
    · exact Or.inr rfl
    · exact Or.inr rfl
  | jarr (x :: xs) =>
    show subP (pfeedO (some p) ('[' :: (renderElems (x :: xs) ++ [']']))) p
    have hstep : pstep p '[' = some p := by rcases hp with rfl | rfl <;> rfl
    exact subP_cons hstep (pfeed_renderElems x xs p hp)
  | jobj [] =>
    show subP (pfeedO (some p) ('{' :: (renderMembers [] ++ ['}']))) p
    rcases hp with rfl | rfl
    · exact Or.inr rfl
    · exact Or.inr rfl
  | jobj ((key, v) :: ms) =>
    show subP (pfeedO (some p) ('{' :: (renderMembers ((key, v) :: ms) ++ ['}']))) p
    have hstep : pstep p '{' = some p := by rcases hp with rfl | rfl <;> rfl
    exact subP_cons hstep (pfeed_renderMembers key v ms p hp)
termination_by sizeOf v

theorem pfeed_renderElems (x : Json) (xs : List Json) (p : PState)
    (hp : p = pout ∨ p = pin false) :
    subP (pfeedO (some p) (renderElems (x :: xs) ++ [']'])) p := by
  match xs with
  | [] =>
    show subP (pfeedO (some p) (render x ++ [']'])) p
    refine subP_chain (pfeed_render x p hp) ?_
    have hstep : pstep p ']' = some p := by rcases hp with rfl | rfl <;> rfl
    rw [pfeedO_single, hstep]
    exact Or.inr rfl
  | y :: ys =>
    show subP (pfeedO (some p)
      ((render x ++ ',' :: ' ' :: renderElems (y :: ys)) ++ [']'])) p
    have hre : (render x ++ ',' :: ' ' :: renderElems (y :: ys)) ++ [']']
        = render x ++ (',' :: ' ' :: (renderElems (y :: ys) ++ [']'])) := by simp
    rw [hre]
    refine subP_chain (pfeed_render x p hp) ?_
    have h1 : pstep p ',' = some p := by rcases hp with rfl | rfl <;> rfl
    have h2 : pstep p ' ' = some p := by rcases hp with rfl | rfl <;> rfl
    exact subP_cons h1 (subP_cons h2 (pfeed_renderElems y ys p hp))
termination_by sizeOf x + sizeOf xs

theorem pfeed_renderMembers (key : String) (v : Json) (ms : List (String × Json))
    (p : PState) (hp : p = pout ∨ p = pin false) :
    subP (pfeedO (some p) (renderMembers ((key, v) :: ms) ++ ['}'])) p := by
  match ms with
  | [] =>
    show subP (pfeedO (some p)
      (('"' :: escList key.data ++ '"' :: ':' :: ' ' :: render v) ++ ['}'])) p
    have hre : ('"' :: escList key.data ++ '"' :: ':' :: ' ' :: render v) ++ ['}']
        = '"' :: (escList key.data ++ ('"' :: ':' :: ' ' :: (render v ++ ['}'])))
      := by simp
    rw [hre]
    rcases hp with rfl | rfl
    · refine subP_cons (show pstep pout '"' = some (pin false) from rfl) ?_
      have h1 : subP (pfeedO (some (pin false)) (escList key.data)) (pin false) := by
        rw [pfeed_escList_pin]; exact Or.inr rfl
      refine subP_chain h1 ?_
      refine subP_cons (show pstep (pin false) '"' = some pout from rfl) ?_
      refine subP_cons (show pstep pout ':' = some pout from rfl) ?_
      refine subP_cons (show pstep pout ' ' = some pout from rfl) ?_
      refine subP_chain (pfeed_render v pout (Or.inl rfl)) ?_
      rw [pfeedO_single]
      exact Or.inr rfl
    · refine subP_cons (show pstep (pin false) '"' = some pout from rfl) ?_
      refine subP_chain (pfeed_escList_pout key.data) ?_
      refine subP_cons (show pstep pout '"' = some (pin false) from rfl) ?_
      refine subP_cons (show pstep (pin false) ':' = some (pin false) from rfl) ?_
      refine subP_cons (show pstep (pin false) ' ' = some (pin false) from rfl) ?_
      refine subP_chain (pfeed_render v (pin false) (Or.inr rfl)) ?_
      rw [pfeedO_single]
      exact Or.inr rfl
  | (key2, v2) :: ms2 =>
    show subP (pfeedO (some p)
      (('"' :: escList key.data ++ '"' :: ':' :: ' ' :: render v
          ++ ',' :: ' ' :: renderMembers ((key2, v2) :: ms2)) ++ ['}'])) p
    have hre : ('"' :: escList key.data ++ '"' :: ':' :: ' ' :: render v
          ++ ',' :: ' ' :: renderMembers ((key2, v2) :: ms2)) ++ ['}']
        = '"' :: (escList key.data ++ ('"' :: ':' :: ' ' ::
            (render v ++ (',' :: ' ' :: (renderMembers ((key2, v2) :: ms2) ++ ['}'])))))
      := by simp
    rw [hre]
    rcases hp with rfl | rfl
    · refine subP_cons (show pstep pout '"' = some (pin false) from rfl) ?_
      have h1 : subP (pfeedO (some (pin false)) (escList key.data)) (pin false) := by
        rw [pfeed_escList_pin]; exact Or.inr rfl
      refine subP_chain h1 ?_
      refine subP_cons (show pstep (pin false) '"' = some pout from rfl) ?_
      refine subP_cons (show pstep pout ':' = some pout from rfl) ?_
      refine subP_cons (show pstep pout ' ' = some pout from rfl) ?_
      refine subP_chain (pfeed_render v pout (Or.inl rfl)) ?_
      refine subP_cons (show pstep pout ',' = some pout from rfl) ?_
      refine subP_cons (show pstep pout ' ' = some pout from rfl) ?_
      exact pfeed_renderMembers key2 v2 ms2 pout (Or.inl rfl)
    · refine subP_cons (show pstep (pin false) '"' = some pout from rfl) ?_
      refine subP_chain (pfeed_escList_pout key.data) ?_
      refine subP_cons (show pstep pout '"' = some (pin false) from rfl) ?_
      refine subP_cons (show pstep (pin false) ':' = some (pin false) from rfl) ?_
      refine subP_cons (show pstep (pin false) ' ' = some (pin false) from rfl) ?_
      refine subP_chain (pfeed_render v (pin false) (Or.inr rfl)) ?_
      refine subP_cons (show pstep (pin false) ',' = some (pin false) from rfl) ?_
      refine subP_cons (show pstep (pin false) ' ' = some (pin false) from rfl) ?_
      exact pfeed_renderMembers key2 v2 ms2 (pin false) (Or.inr rfl)
termination_by sizeOf v + sizeOf ms

end

/-! ### No parse for a colon-shifted object rendering

A history member is stored as `id + ":" + json.dumps(payload)`.  When the
id itself contains `':'`, the read side splits at the *first* colon and
hands `loads` a string of the form `y ++ ":" ++ json.dumps(payload)` with
the payload a dict.  No such string parses. -/

theorem stepAfterChar_colon (v : Json) (k : List Frame) : stepAfterChar v k ':' = none := by
  unfold stepAfterChar
  rw [if_neg (by decide)]
  cases k with
  | nil => rfl
  | cons f k' =>
    cases f with
    | fArr done => rfl
    | fObj done key => rfl

theorem projS_pin {st : JState} {e : Bool} (h : projS st = pin e) :
    ∃ acc ret k, st = sStr acc e ret k := by
  cases st with
  | sStr acc e' ret k =>
    simp only [projS, pin.injEq] at h
    exact ⟨acc, ret, k, by rw [h]⟩
  | sVal k => cases h
  | sKey done k => cases h
  | sColon key done k => cases h
  | sNum acc k => cases h
  | sAfter v k => cases h

theorem finalize_instring (acc : List Char) (ret : Ret) (k : List Frame)
    (kvs : List (String × Json)) :
    finalize (feedO (some (sStr acc false ret k)) (render (jobj kvs))) = none := by
  cases hf : feedO (some (sStr acc false ret k)) (render (jobj kvs)) with
  | none => rfl
  | some st' =>
    have hs : pfeedO (some (pin false)) (render (jobj kvs)) = some (projS st') :=
      feedO_sim (render (jobj kvs)) (sStr acc false ret k) st' hf
    rcases pfeed_render (jobj kvs) (pin false) (Or.inr rfl) with hnone | heq
    · rw [hs] at hnone; cases hnone
    · rw [hs] at heq
      have hpin : projS st' = pin false := by injection heq
      obtain ⟨acc', ret', k', rfl⟩ := projS_pin hpin
      rfl

theorem loadsL_colon_obj (y : List Char) (kvs : List (String × Json)) :
    loadsL (y ++ ':' :: render (jobj kvs)) = none := by
  unfold loadsL
  have hsplit : y ++ ':' :: render (jobj kvs) = (y ++ [':']) ++ render (jobj kvs) := by
    simp
  rw [hsplit, feedO_append, feedO_append]
  cases h0 : feedO (some (sVal [])) y with
  | none => rw [feedO_none, feedO_none]; rfl
  | some st =>
    have hone : feedO (some st) [':'] = stepChar st ':' := by simp [feedO]
    rw [hone]
    cases st with
    | sVal k =>
      rw [show stepChar (sVal k) ':' = none from rfl, feedO_none]; rfl
    | sKey done k =>
      rw [show stepChar (sKey done k) ':' = none from rfl, feedO_none]; rfl
    | sColon key done k =>
      rw [show stepChar (sColon key done k) ':' = some (sVal (fObj done key :: k)) from rfl,
        feed_render (jobj kvs) (fObj done key :: k)]
      rfl
    | sStr acc esc ret k =>
      cases esc with
      | true =>
        rw [show stepChar (sStr acc true ret k) ':'
          = some (sStr (acc ++ [':']) false ret k) from rfl]
        exact finalize_instring _ _ _ _
      | false =>
        rw [show stepChar (sStr acc false ret k) ':'
          = some (sStr (acc ++ [':']) false ret k) from rfl]
        exact finalize_instring _ _ _ _
    | sNum acc k =>
      have hnone : stepChar (sNum acc k) ':' = none := by
        simp only [stepChar]
        rw [if_neg (by decide)]
        cases hc : completeNum acc with
        | none => rfl
        | some v => exact stepAfterChar_colon v k
      rw [hnone, feedO_none]; rfl
    | sAfter v k =>
      rw [show stepChar (sAfter v k) ':' = none from stepAfterChar_colon v k, feedO_none]
      rfl

/-! ## The aggregation store: `app/redis_client.py` -/

def DECISIONS_HASH_KEY : String := "crowdsec:decisions:hash"
def COUNTRY_HASH_KEY : String := "crowdsec:country:counts"
def TOTAL_ATTACKS_KEY : String := "crowdsec:total:attacks"
def UNIQUE_COUNTRIES_SET_KEY : String := "crowdsec:unique:countries"
def DECISIONS_HISTORY_LIST_KEY : String := "crowdsec:decisions:history"

/-- One Redis command issued by the write path of `add_decision`. -/
inductive ROp where
  | hset (key field value : String)
  | expire (key : String) (seconds : Nat)
  | incr (key : String)
  | hincrby (key field : String) (amount : Int)
  | sadd (key member : String)
  | zadd (key member : String)
deriving Repr, DecidableEq

/-- Which of the individual Redis calls of one `add_decision` run raise.
A raising call has no effect and is not recorded as issued. -/
structure FailProfile where
  hsetFails : Bool
  expireRecentFails : Bool
  incrFails : Bool
  hincrbyFails : Bool
  expireCountryFails : Bool
  saddFails : Bool
  zaddFails : Bool
  expireHistFails : Bool
deriving Repr, DecidableEq

/-- The failure-free profile: every Redis call succeeds. -/
def noFail : FailProfile := ⟨false, false, false, false, false, false, false, false⟩

/-- The member stored by `_add_to_history`:
`f"{decision_id}:{json.dumps(decision_data)}"`. -/
def historyMember (decision_id : String) (decision_data : List (String × Json)) : String :=
  decision_id ++ ":" ++ dumps (jobj decision_data)

/-- The commands of the country block (`_increment_country_count` then
`_add_unique_country`, one shared `try`): skipped entirely for a falsy
country value, and cut short at the first raising call. -/
def countryOps (decision_data : List (String × Json)) (f : FailProfile) : List ROp :=
  match jget decision_data "cn" with
  | some cv =>
    if cv.truthy then
      (if f.hincrbyFails then []
       else ROp.hincrby COUNTRY_HASH_KEY (pyStr cv) 1 ::
         (if f.expireCountryFails then []
          else ROp.expire COUNTRY_HASH_KEY 86400 ::
            (if f.saddFails then []
             else [ROp.sadd UNIQUE_COUNTRIES_SET_KEY (pyStr cv)])))
    else []
  | none => []

/-- The commands of the history block (`_add_to_history`, one `try`):
cut short at the first raising call. -/
def histOps (decision_id : String) (decision_data : List (String × Json))
    (f : FailProfile) : List ROp :=
  if f.zaddFails then []
  else ROp.zadd DECISIONS_HISTORY_LIST_KEY (historyMember decision_id decision_data) ::
    (if f.expireHistFails then [] else [ROp.expire DECISIONS_HISTORY_LIST_KEY 604800])

/-- `RedisClient.add_decision` (redis_client.py lines 41-97), with its helpers
`_increment_total_attacks`, `_increment_country_count`, `_add_unique_country`
and `_add_to_history` inlined in source order.  Returns the boolean result
of the call together with the list of Redis commands that took effect:
client not initialized, or `hset` or the recent-window `expire` raising
(these hit the outer handler) give `False`; the total counter, the country
block and the history block are each wrapped so a failure is logged and
execution continues; otherwise `True`. -/
def add_decision (connected : Bool) (decision_data : List (String × Json))
    (decision_id : String) (f : FailProfile) : Bool × List ROp :=
  if !connected then (false, [])
  else if f.hsetFails then (false, [])
  else if f.expireRecentFails then
    (false, [ROp.hset DECISIONS_HASH_KEY decision_id (dumps (jobj decision_data))])
  else
    (true, ROp.hset DECISIONS_HASH_KEY decision_id (dumps (jobj decision_data)) ::
      ROp.expire DECISIONS_HASH_KEY 20 ::
      ((if f.incrFails then [] else [ROp.incr TOTAL_ATTACKS_KEY]) ++
        countryOps decision_data f ++ histOps decision_id decision_data f))

/-- The modelled Redis state read by the query operations. -/
structure Store where
  decisionsHash : List (String × String)
  countryCounts : List (String × String)
  totalAttacks : Option String
  uniqueCountries : List String
  history : List String
deriving Repr

/-- Availability of the store backend as seen by one read call:
`self.redis_client is None`, the underlying read raising, or a live store. -/
inductive Backend where
  | noClient
  | raising
  | ok (st : Store)
deriving Repr

/-- The item loop of `get_latest_decisions`: stop once `count` entries are
collected, parse each stored JSON text, skip entries that fail to parse. -/
def parseLatest : List (String × String) → Nat → List (String × Json)
  | [], _ => []
  | (id, js) :: rest, remaining =>
    if remaining = 0 then []
    else
      match loads js with
      | some d => (id, d) :: parseLatest rest (remaining - 1)
      | none => parseLatest rest remaining

/-- `RedisClient.get_latest_decisions` (redis_client.py lines 149-189):
returns `[]` when the client is not initialized or the read raises. -/
def get_latest_decisions (b : Backend) (count : Nat) : List (String × Json) :=
  match b with
  | .noClient => []
  | .raising => []
  | .ok st => parseLatest st.decisionsHash count

/-- Normalization of one Redis range index against a collection of `n`
elements: negative indexes count from the end. -/
def zrIdx (n i : Int) : Int := if i < 0 then n + i else i

/-- Redis `ZREVRANGE key start stop`: ranks into the reversed (highest
score first) list, negative indexes counting from the end, out-of-range
indexes clamped, empty when start exceeds stop. -/
def zrevrange (l : List String) (start stop : Int) : List String :=
  if max (zrIdx l.length start) 0 > min (zrIdx l.length stop) ((l.length : Int) - 1) then []
  else
    (l.reverse.drop (max (zrIdx l.length start) 0).toNat).take
      (min (zrIdx l.length stop) ((l.length : Int) - 1)
        - max (zrIdx l.length start) 0 + 1).toNat

/-- Splits a character list at its first `':'` (Python `split(":", 1)`);
`none` in the second component means the list holds no colon. -/
def splitFirstColon : List Char → List Char × Option (List Char)
  | [] => ([], none)
  | c :: rest =>
    if c = ':' then ([], some rest)
    else
      let p := splitFirstColon rest
      (c :: p.1, p.2)

/-- The per-item body of the `get_decision_history` loop: items without a
colon are skipped, others are split at the first colon and the remainder
is given to `json.loads`; parse failures are skipped. -/
def parseHistoryItem (item : String) : Option (String × Json) :=
  match splitFirstColon item.data with
  | (_, none) => none
  | (pre, some rest) =>
    match loadsL rest with
    | some d => some (String.mk pre, d)
    | none => none

/-- `RedisClient.get_decision_history` (redis_client.py lines 220-268):
clamps the limit to 1000, reads `ZREVRANGE history offset (offset+limit-1)`
and parses each member, skipping corrupt ones; `[]` when the client is not
initialized or the read raises. -/
def get_decision_history (b : Backend) (limit offset : Int) : List (String × Json) :=
  match b with
  | .noClient => []
  | .raising => []
  | .ok st =>
    let lim := min limit 1000
    (zrevrange st.history offset (offset + lim - 1)).filterMap parseHistoryItem

/-- `RedisClient.get_history_count`. -/
def get_history_count (b : Backend) : Nat :=
  match b with
  | .ok st => st.history.length
  | _ => 0

/-- Metadata block of the country rollup. -/
structure CountryMeta where
  total_attacks : Int
  unique_countries : Nat
  attacks_per_hour : Int
deriving Repr, DecidableEq

/-- Result of `get_decisions_by_country`: an explicit error payload or a
success payload with metadata and sorted per-country counts. -/
inductive CountryRes where
  | error (msg : String)
  | success (meta : CountryMeta) (countries : List (String × Int))
deriving Repr, DecidableEq

/-- The parsed total-attacks counter: `0` when the key is missing, the
stored string is empty (falsy), or `int(...)` raises. -/
def parsedTotal (st : Store) : Int :=
  match st.totalAttacks with
  | none => 0
  | some s => if s = "" then 0 else (parseInt s.data).getD 0

/-- Stable insertion keeping earlier elements ahead of later equal ones,
descending by count — the effect of Python's stable
`list.sort(key=..., reverse=True)`. -/
def insertDesc (x : String × Int) : List (String × Int) → List (String × Int)
  | [] => [x]
  | y :: rest => if y.2 ≥ x.2 then y :: insertDesc x rest else x :: y :: rest

/-- Stable descending sort by count. -/
def sortDesc : List (String × Int) → List (String × Int)
  | [] => []
  | x :: rest => insertDesc x (sortDesc rest)

/-- `RedisClient.get_decisions_by_country` (redis_client.py lines 300-378). -/
def get_decisions_by_country (b : Backend) : CountryRes :=
  match b with
  | .noClient => .error "Redis client not initialized"
  | .raising => .error "An internal error occurred"
  | .ok st =>
    let total := parsedTotal st
    let aph := if total > 0 then Int.fdiv total 24 else 0
    let meta : CountryMeta := ⟨total, st.uniqueCountries.length, aph⟩
    let cs := st.countryCounts.filterMap
      (fun p => (parseInt p.2.data).map (fun n => (p.1, n)))
    .success meta (sortDesc cs)

/-! ## The route wrappers: `app/api/alerts.py` and `app/api/country.py` -/

/-- Shape of the JSON payload returned by the two alerts routes. -/
inductive ApiResp where
  | rsuccess (decisions : List (String × Json))
  | rerror (msg : String)
deriving Repr

/-- `GET /decisions` (alerts.py lines 13-34).  The store read swallows its
own failures and returns a list, so the route's `except` branch is
unreachable and the answer is always a success payload. -/
def route_get_latest (b : Backend) : ApiResp :=
  .rsuccess (get_latest_decisions b 20)

/-- `GET /decisions/history` (alerts.py lines 37-73): always a success
payload around `get_decision_history`. -/
def route_get_history (b : Backend) (limit offset : Int) : ApiResp :=
  .rsuccess (get_decision_history b limit offset)

/-- `GET /country` (country.py lines 13-34): returns the store result
verbatim (including its explicit error payloads). -/
def route_get_country (b : Backend) : CountryRes :=
  get_decisions_by_country b

/-! ## The decision poller: `app/crowdsec_client.py` -/

mutual

/-- Python `==` on JSON values (cross-type comparison is `False`). -/
def jeq : Json → Json → Bool
  | jnum a, jnum b => a == b
  | jstr a, jstr b => a == b
  | jarr a, jarr b => jeqList a b
  | jobj a, jobj b => jeqKvs a b
  | _, _ => false

/-- Elementwise `==` on JSON arrays. -/
def jeqList : List Json → List Json → Bool
  | [], [] => true
  | a :: as, b :: bs => jeq a b && jeqList as bs
  | _, _ => false

/-- Elementwise `==` on JSON object members. -/
def jeqKvs : List (String × Json) → List (String × Json) → Bool
  | [], [] => true
  | (k1, v1) :: as, (k2, v2) :: bs => (k1 == k2 && jeq v1 v2) && jeqKvs as bs
  | _, _ => false

end

mutual

theorem jeq_refl (v : Json) : jeq v v = true := by
  match v with
  | jnum a => simp [jeq]
  | jstr a => simp [jeq]
  | jarr xs => simpa [jeq] using jeqList_refl xs
  | jobj kvs => simpa [jeq] using jeqKvs_refl kvs
termination_by sizeOf v

theorem jeqList_refl (xs : List Json) : jeqList xs xs = true := by
  match xs with
  | [] => rfl
  | a :: as => simp [jeqList, jeq_refl a, jeqList_refl as]
termination_by sizeOf xs

theorem jeqKvs_refl (kvs : List (String × Json)) : jeqKvs kvs kvs = true := by
  match kvs with
  | [] => rfl
  | (k, v) :: rest => simp [jeqKvs, jeq_refl v, jeqKvs_refl rest]
termination_by sizeOf kvs

end

/-- `self.last_decision_id == json_data[0]["id"]`: the stored last-seen
value (initially `None`) compared with the newest id. -/
def optJeq (o : Option Json) (v : Json) : Bool :=
  match o with
  | none => false
  | some w => jeq w v

/-- Python `obj[0]`: head of a JSON array, raising (here `none`) otherwise. -/
def jIndex0 : Json → Option Json
  | jarr (x :: _) => some x
  | _ => none

/-- Python `obj["k"]`: member lookup on a JSON object, raising (`none`)
otherwise. -/
def jField (j : Json) (k : String) : Option Json :=
  match j with
  | jobj kvs => jget kvs k
  | _ => none

/-- Mutable fields of `CrowdSecClient` used by the stream loop:
`API_KEY`, `KEY_RENEWAL_AT`, `last_decision_id`.  Times are integer
seconds. -/
structure PollerState where
  apiKey : String
  keyRenewalAt : Option Int
  lastDecisionId : Option Json
deriving Repr

/-- Body of a successful `/v1/watchers/login` exchange as `get_apikey`
reads it: the optional `token`, and the `expire` timestamp after the
iso-parsing fallbacks (a missing or unparsable expiry is collapsed to
`none`, which `get_apikey` replaces by now + 10 minutes). -/
structure LoginResp where
  token : Option String
  expire : Option Int
deriving Repr

/-- What one poll request observes: `_make_request` returning `None`,
`response.json()` raising, or a parsed body. -/
inductive PollOutcome where
  | transportFail
  | badJson
  | payload (j : Json)
deriving Repr

/-- Environment of one loop iteration. -/
structure PollEnv where
  login : Option LoginResp
  poll : PollOutcome
deriving Repr

/-- Observable actions of one loop iteration: whether a credential
renewal was attempted, whether the poll request was reached, the
`add_decision` call made (id and payload dict), and the sleep executed
(milliseconds; `none` means the loop continued immediately). -/
structure StepAction where
  renewAttempted : Bool
  polled : Bool
  ingest : Option (String × List (String × Json))
  sleepMs : Option Nat
deriving Repr

/-- `get_apikey` (crowdsec_client.py lines 115-148): a failed exchange
leaves the credential state untouched; a successful one stores the token
(`""` when absent) and the expiry (now + 600 s when absent/unparsable). -/
def get_apikey (s : PollerState) (now : Int) (login : Option LoginResp) : PollerState :=
  match login with
  | none => s
  | some r =>
    { s with
      keyRenewalAt := some (r.expire.getD (now + 600))
      apiKey := r.token.getD "" }

/-- The loop-head renewal condition
`self.KEY_RENEWAL_AT and now >= (self.KEY_RENEWAL_AT - timedelta(minutes=5))`. -/
def renewalDueB (s : PollerState) (now : Int) : Bool :=
  match s.keyRenewalAt with
  | some t => now ≥ t - 300
  | none => false

/-- One iteration of the `while True` loop of
`CrowdSecClient.stream_decisions` (crowdsec_client.py lines 159-208).
The timestamp string put in the payload stands for
`datetime.now(tz).isoformat()`; it is rendered from the integer clock. -/
def pollStep (s : PollerState) (now : Int) (env : PollEnv) : PollerState × StepAction :=
  if renewalDueB s now then
    (get_apikey s now env.login,
      { renewAttempted := true, polled := false, ingest := none, sleepMs := none })
  else
    match env.poll with
    | .transportFail => (s, ⟨false, true, none, some 5000⟩)
    | .badJson => (s, ⟨false, true, none, some 5000⟩)
    | .payload j =>
      match jIndex0 j with
      | none => (s, ⟨false, true, none, some 5000⟩)
      | some item =>
        match jField item "id" with
        | none => (s, ⟨false, true, none, some 5000⟩)
        | some idv =>
          if optJeq s.lastDecisionId idv then
            (s, ⟨false, true, none, some 1250⟩)
          else
            let s' := { s with lastDecisionId := some idv }
            match jField item "source" with
            | none => (s', ⟨false, true, none, some 5000⟩)
            | some src =>
              match jField src "latitude", jField src "longitude", jField src "cn" with
              | some la, some lo, some cn =>
                let data := [("latitude", la), ("longitude", lo), ("cn", cn),
                  ("timestamp", jstr (String.mk (intChars now)))]
                (s', ⟨false, true, some (pyStr idv, data), none⟩)
              | _, _, _ => (s', ⟨false, true, none, some 5000⟩)

/-! ## Claims -/

/-- The property of claim C1 as stated: every read operation invoked while
the store backend is unavailable surfaces an explicit error result, never
an empty successful result. -/
def ClaimC1 : Prop :=
  ∀ b : Backend, (b = .noClient ∨ b = .raising) →
    (∃ m, route_get_latest b = .rerror m) ∧
    (∀ limit offset : Int, ∃ m, route_get_history b limit offset = .rerror m) ∧
    (∃ m, route_get_country b = .error m)

/-- C1 counterexample: with the Redis client not initialized, the
`/decisions` route answers `{"status": "success", "decision": []}` — an
empty successful result, not an error — because `get_latest_decisions`
returns `[]` on its error paths. -/
theorem c1_counterexample : ¬ ClaimC1 := by
  intro h
  obtain ⟨⟨m, hm⟩, -, -⟩ := h .noClient (Or.inl rfl)
  exact ApiResp.noConfusion hm

/-- C1 amended: when the store backend is unavailable (client not
initialized, or the read raising), only the country rollup surfaces an
explicit error payload; `get_latest_decisions` and `get_decision_history`
return an empty list, which the API layer reports as an empty successful
result. -/
theorem c1_amended : ∀ b : Backend, (b = .noClient ∨ b = .raising) →
    route_get_latest b = .rsuccess [] ∧
    (∀ limit offset : Int, route_get_history b limit offset = .rsuccess []) ∧
    (∃ m, route_get_country b = .error m) := by
  intro b hb
  rcases hb with rfl | rfl
  · exact ⟨rfl, fun limit offset => by cases limit <;> cases offset <;> rfl,
      ⟨"Redis client not initialized", rfl⟩⟩
  · exact ⟨rfl, fun limit offset => by cases limit <;> cases offset <;> rfl,
      ⟨"An internal error occurred", rfl⟩⟩

/-- C1 witness: the amended statement evaluated at the uninitialized
client. -/
theorem c1_witness :
    route_get_latest .noClient = .rsuccess [] ∧
    route_get_history .noClient 100 0 = .rsuccess [] ∧
    (∃ m, route_get_country .noClient = .error m) := by
  obtain ⟨h1, h2, h3⟩ := c1_amended .noClient (Or.inl rfl)
  exact ⟨h1, h2 100 0, h3⟩

/-- C8: the `attacks_per_hour` metadata field of the country rollup is
`total_attacks // 24` (floor division, `Int.fdiv`), including
`total_attacks = 0` where it is `0`; a missing, empty or non-integer
stored counter is parsed as `0`.  The hypothesis `0 ≤ parsedTotal st`
records the codomain of the stored counter, which only ever receives
`INCR`. -/
theorem c8_attacks_per_hour (st : Store) :
    (0 ≤ parsedTotal st →
      ∃ cs, get_decisions_by_country (.ok st)
        = .success ⟨parsedTotal st, st.uniqueCountries.length,
            Int.fdiv (parsedTotal st) 24⟩ cs) ∧
    (st.totalAttacks = none → parsedTotal st = 0) ∧
    (∀ s, st.totalAttacks = some s → parseInt s.data = none → parsedTotal st = 0) := by
  refine ⟨fun h => ?_, fun h => by simp [parsedTotal, h], fun s hs hp => ?_⟩
  · refine ⟨sortDesc (st.countryCounts.filterMap
      (fun p => (parseInt p.2.data).map (fun n => (p.1, n)))), ?_⟩
    simp only [get_decisions_by_country]
    congr 1
    by_cases hpos : parsedTotal st > 0
    · simp [hpos]
    · have h0 : parsedTotal st = 0 := by omega
      simp [hpos, h0]
  · simp only [parsedTotal, hs]
    by_cases he : s = ""
    · simp [he]
    · simp [he, hp]

/-- C8 witness: a store holding the counter text `"120"` yields
`attacks_per_hour = 5 = 120 // 24`. -/
theorem c8_witness :
    ∃ cs, get_decisions_by_country
        (.ok ⟨[], [], some "120", ["US"], []⟩)
      = .success ⟨120, 1, 5⟩ cs := by
  obtain ⟨h1, -, -⟩ := c8_attacks_per_hour ⟨[], [], some "120", ["US"], []⟩
  have := h1 (by decide)
  simpa using this

/-- Truthiness of the country value `decision_data.get("cn")`: `False` for
a missing key and for falsy values (in particular the empty string). -/
def cnTruthy (data : List (String × Json)) : Bool :=
  match jget data "cn" with
  | some cv => cv.truthy
  | none => false

/-- C9: a decision whose `cn` is empty or absent leaves the country
counter hash and the unique-countries set untouched under every failure
profile; in the failure-free run the ingest still succeeds, writes the
recent-window hash, increments the total counter and appends to the
history log. -/
theorem c9_empty_country_frame (data : List (String × Json)) (id : String)
    (f : FailProfile) (hcn : cnTruthy data = false) :
    ((∀ fld m, ROp.hincrby COUNTRY_HASH_KEY fld m ∉ (add_decision true data id f).2) ∧
     (∀ m, ROp.sadd UNIQUE_COUNTRIES_SET_KEY m ∉ (add_decision true data id f).2)) ∧
    (f = noFail →
      (add_decision true data id f).1 = true ∧
      ROp.hset DECISIONS_HASH_KEY id (dumps (jobj data)) ∈ (add_decision true data id f).2 ∧
      ROp.incr TOTAL_ATTACKS_KEY ∈ (add_decision true data id f).2 ∧
      ROp.zadd DECISIONS_HISTORY_LIST_KEY (historyMember id data)
        ∈ (add_decision true data id f).2) := by
  have hc : countryOps data f = [] := by
    unfold countryOps
    unfold cnTruthy at hcn
    cases hjg : jget data "cn" with
    | none => rfl
    | some cv =>
      rw [hjg] at hcn
      simp only [] at hcn
      simp [hcn]
  refine ⟨⟨fun fld m => ?_, fun m => ?_⟩, fun hf => ?_⟩
  · simp only [add_decision]
    split_ifs <;> simp [hc, histOps, List.mem_append]
  · simp only [add_decision]
    split_ifs <;> simp [hc, histOps, List.mem_append]
  · subst hf
    refine ⟨rfl, ?_, ?_, ?_⟩ <;>
      simp [add_decision, noFail, hc, histOps, List.mem_append]

/-- C9 witness: the empty-string country code, failure-free profile. -/
theorem c9_witness :
    (ROp.hincrby COUNTRY_HASH_KEY "" 1 ∉
        (add_decision true [("cn", jstr "")] "d1" noFail).2) ∧
    (ROp.sadd UNIQUE_COUNTRIES_SET_KEY "" ∉
        (add_decision true [("cn", jstr "")] "d1" noFail).2) ∧
    (add_decision true [("cn", jstr "")] "d1" noFail).1 = true ∧
    ROp.incr TOTAL_ATTACKS_KEY ∈ (add_decision true [("cn", jstr "")] "d1" noFail).2 := by
  obtain ⟨⟨h1, h2⟩, h3⟩ := c9_empty_country_frame [("cn", jstr "")] "d1" noFail (by decide)
  obtain ⟨h4, -, h6, -⟩ := h3 rfl
  exact ⟨h1 "" 1, h2 "", h4, h6⟩

/-- The property of claim C2 as stated: each sub-update failure is
isolated (so each later sub-update, here exemplified by the unique-country
add, still happens whenever its own call succeeds), and `add_decision`
returns `False` exactly when the client is uninitialized or the primary
recent-window write (hash write or its TTL refresh) fails. -/
def ClaimC2 : Prop :=
  ∀ (conn : Bool) (data : List (String × Json)) (id : String) (f : FailProfile),
    ((add_decision conn data id f).1 = false
      ↔ (conn = false ∨ f.hsetFails = true ∨ f.expireRecentFails = true)) ∧
    (conn = true → f.hsetFails = false → f.expireRecentFails = false →
      (f.incrFails = false →
        ROp.incr TOTAL_ATTACKS_KEY ∈ (add_decision conn data id f).2) ∧
      (f.zaddFails = false →
        ROp.zadd DECISIONS_HISTORY_LIST_KEY (historyMember id data)
          ∈ (add_decision conn data id f).2) ∧
      (∀ cv, jget data "cn" = some cv → cv.truthy = true → f.saddFails = false →
        ROp.sadd UNIQUE_COUNTRIES_SET_KEY (pyStr cv) ∈ (add_decision conn data id f).2))

/-- C2 counterexample: with only the country-counter increment raising
(`hincrbyFails`), the unique-country `SADD` — whose own call would
succeed — is skipped, because `_increment_country_count` and
`_add_unique_country` sit in one shared `try` block. -/
theorem c2_counterexample : ¬ ClaimC2 := by
  intro h
  have h2 := ((h true [("cn", jstr "US")] "d1"
      ⟨false, false, false, true, false, false, false, false⟩).2 rfl rfl rfl).2.2
    (jstr "US") rfl rfl rfl
  exact absurd h2 (by decide)

/-- C2 amended: the return value is `False` iff the client is
uninitialized or the primary recent-window write fails; total-counter and
history failures are isolated as claimed; but the unique-country add is
issued only when the whole country block (`hincrby`, country-TTL
`expire`, `sadd`) runs without failure — a failing country-counter
increment also aborts it. -/
theorem c2_amended (conn : Bool) (data : List (String × Json)) (id : String)
    (f : FailProfile) :
    ((add_decision conn data id f).1 = false
      ↔ (conn = false ∨ f.hsetFails = true ∨ f.expireRecentFails = true)) ∧
    (conn = true → f.hsetFails = false → f.expireRecentFails = false →
      (f.incrFails = false →
        ROp.incr TOTAL_ATTACKS_KEY ∈ (add_decision conn data id f).2) ∧
      (f.zaddFails = false →
        ROp.zadd DECISIONS_HISTORY_LIST_KEY (historyMember id data)
          ∈ (add_decision conn data id f).2) ∧
      (∀ cv, jget data "cn" = some cv → cv.truthy = true →
        f.hincrbyFails = false → f.expireCountryFails = false → f.saddFails = false →
        ROp.sadd UNIQUE_COUNTRIES_SET_KEY (pyStr cv) ∈ (add_decision conn data id f).2) ∧
      (f.hincrbyFails = true →
        ∀ m, ROp.sadd UNIQUE_COUNTRIES_SET_KEY m ∉ (add_decision conn data id f).2)) := by
  constructor
  · cases conn with
    | false => simp [add_decision]
    | true =>
      by_cases h1 : f.hsetFails <;> by_cases h2 : f.expireRecentFails <;>
        simp [add_decision, h1, h2]
  · intro hc h1 h2
    subst hc
    have hops : (add_decision true data id f).2
        = ROp.hset DECISIONS_HASH_KEY id (dumps (jobj data)) ::
          ROp.expire DECISIONS_HASH_KEY 20 ::
          ((if f.incrFails then [] else [ROp.incr TOTAL_ATTACKS_KEY]) ++
            countryOps data f ++ histOps id data f) := by
      simp [add_decision, h1, h2]
    refine ⟨fun hi => ?_, fun hz => ?_, fun cv hg ht hh he hs => ?_, fun hh m => ?_⟩
    · simp [hops, hi, List.mem_append]
    · simp [hops, histOps, hz, List.mem_append]
    · simp [hops, countryOps, hg, ht, hh, he, hs, List.mem_append]
    · have hcountry : countryOps data f = [] := by
        unfold countryOps
        cases jget data "cn" with
        | none => rfl
        | some cv => by_cases ht : cv.truthy <;> simp [ht, hh]
      rw [hops, hcountry]
      by_cases hi : f.incrFails <;> by_cases hz : f.zaddFails <;>
        by_cases he : f.expireHistFails <;>
          simp [histOps, hi, hz, he, List.mem_append]

/-- C2 witness: a run with only the history append failing still counts
the attack and, once the whole country block succeeds, records the
country; the call reports success. -/
theorem c2_witness :
    ¬ (add_decision true [("cn", jstr "DE")] "d9"
        ⟨false, false, false, false, false, false, true, false⟩).1 = false ∧
    ROp.incr TOTAL_ATTACKS_KEY ∈
      (add_decision true [("cn", jstr "DE")] "d9"
        ⟨false, false, false, false, false, false, true, false⟩).2 ∧
    ROp.sadd UNIQUE_COUNTRIES_SET_KEY "DE" ∈
      (add_decision true [("cn", jstr "DE")] "d9"
        ⟨false, false, false, false, false, false, true, false⟩).2 := by
  obtain ⟨hiff, hrest⟩ := c2_amended true [("cn", jstr "DE")] "d9"
    ⟨false, false, false, false, false, false, true, false⟩
  obtain ⟨hincr, -, hsadd, -⟩ := hrest rfl rfl rfl
  refine ⟨?_, hincr rfl, hsadd (jstr "DE") rfl rfl rfl rfl rfl⟩
  rw [hiff]
  simp

/-- The property of claim C6 as stated: every successful ingest refreshes
the recent-window TTL to 20 s, the country-counter TTL to 86400 s and the
history TTL to 604800 s, and never sets a TTL on the total counter or the
unique-countries set. -/
def ClaimC6 : Prop :=
  ∀ (conn : Bool) (data : List (String × Json)) (id : String) (f : FailProfile),
    (add_decision conn data id f).1 = true →
      ROp.expire DECISIONS_HASH_KEY 20 ∈ (add_decision conn data id f).2 ∧
      ROp.expire COUNTRY_HASH_KEY 86400 ∈ (add_decision conn data id f).2 ∧
      ROp.expire DECISIONS_HISTORY_LIST_KEY 604800 ∈ (add_decision conn data id f).2 ∧
      (∀ n, ROp.expire TOTAL_ATTACKS_KEY n ∉ (add_decision conn data id f).2) ∧
      (∀ n, ROp.expire UNIQUE_COUNTRIES_SET_KEY n ∉ (add_decision conn data id f).2)

/-- C6 counterexample: an ingest of a decision without a country code
succeeds but never touches the country-counter hash, so its 24-hour TTL
is not refreshed by that ingest. -/
theorem c6_counterexample : ¬ ClaimC6 := by
  intro h
  have h2 := (h true [] "d1" noFail rfl).2.1
  exact absurd h2 (by decide)

/-- Membership of an `EXPIRE` in the country block determines its key and
seconds. -/
theorem mem_countryOps_expire {data : List (String × Json)} {f : FailProfile}
    {key : String} {n : Nat} (h : ROp.expire key n ∈ countryOps data f) :
    key = COUNTRY_HASH_KEY ∧ n = 86400 := by
  unfold countryOps at h
  cases hjg : jget data "cn" with
  | none => rw [hjg] at h; cases h
  | some cv =>
    rw [hjg] at h
    by_cases ht : cv.truthy = true
    · simp only [ht, if_true] at h
      split_ifs at h <;> simp_all
    · simp [ht] at h

/-- Membership of an `EXPIRE` in the history block determines its key and
seconds. -/
theorem mem_histOps_expire {id : String} {data : List (String × Json)}
    {f : FailProfile} {key : String} {n : Nat}
    (h : ROp.expire key n ∈ histOps id data f) :
    key = DECISIONS_HISTORY_LIST_KEY ∧ n = 604800 := by
  unfold histOps at h
  split_ifs at h <;> simp_all

/-- C6 amended: every successful ingest refreshes the recent-window TTL
to 20 s; the country-counter TTL (86400 s) is refreshed exactly when the
decision carries a truthy country code and neither country call fails;
the history TTL (604800 s) is refreshed when the history block runs
without failure; the only `EXPIRE` seconds ever used per key are those
three; and no ingest ever sets a TTL on the total-attacks counter or the
unique-countries set. -/
theorem c6_amended (conn : Bool) (data : List (String × Json)) (id : String)
    (f : FailProfile) (h : (add_decision conn data id f).1 = true) :
    ROp.expire DECISIONS_HASH_KEY 20 ∈ (add_decision conn data id f).2 ∧
    (∀ cv, jget data "cn" = some cv → cv.truthy = true → f.hincrbyFails = false →
      f.expireCountryFails = false →
      ROp.expire COUNTRY_HASH_KEY 86400 ∈ (add_decision conn data id f).2) ∧
    (f.zaddFails = false → f.expireHistFails = false →
      ROp.expire DECISIONS_HISTORY_LIST_KEY 604800 ∈ (add_decision conn data id f).2) ∧
    (∀ n, ROp.expire TOTAL_ATTACKS_KEY n ∉ (add_decision conn data id f).2) ∧
    (∀ n, ROp.expire UNIQUE_COUNTRIES_SET_KEY n ∉ (add_decision conn data id f).2) ∧
    (∀ n, ROp.expire DECISIONS_HASH_KEY n ∈ (add_decision conn data id f).2 → n = 20) ∧
    (∀ n, ROp.expire COUNTRY_HASH_KEY n ∈ (add_decision conn data id f).2 → n = 86400) ∧
    (∀ n, ROp.expire DECISIONS_HISTORY_LIST_KEY n ∈ (add_decision conn data id f).2
      → n = 604800) := by
  have hcc : conn = true ∧ f.hsetFails = false ∧ f.expireRecentFails = false := by
    cases conn with
    | false => simp [add_decision] at h
    | true =>
      by_cases h1 : f.hsetFails <;> by_cases h2 : f.expireRecentFails <;>
        simp_all [add_decision]
  obtain ⟨rfl, h1, h2⟩ := hcc
  have hops : (add_decision true data id f).2
      = ROp.hset DECISIONS_HASH_KEY id (dumps (jobj data)) ::
        ROp.expire DECISIONS_HASH_KEY 20 ::
        ((if f.incrFails then [] else [ROp.incr TOTAL_ATTACKS_KEY]) ++
          countryOps data f ++ histOps id data f) := by
    simp [add_decision, h1, h2]
  refine ⟨by simp [hops], fun cv hg ht hh he => ?_, fun hz hhe => ?_,
    fun n hmem => ?_, fun n hmem => ?_, fun n hmem => ?_, fun n hmem => ?_,
    fun n hmem => ?_⟩
  · simp [hops, countryOps, hg, ht, hh, he, List.mem_append]
  · simp [hops, histOps, hz, hhe, List.mem_append]
  · rw [hops] at hmem
    simp only [List.mem_cons, List.mem_append] at hmem
    rcases hmem with hmem | hmem | ((hmem | hmem) | hmem)
    · cases hmem
    · simp [TOTAL_ATTACKS_KEY, DECISIONS_HASH_KEY] at hmem
    · split_ifs at hmem <;> simp_all
    · have := mem_countryOps_expire hmem
      simp [TOTAL_ATTACKS_KEY, COUNTRY_HASH_KEY] at this
    · have := mem_histOps_expire hmem
      simp [TOTAL_ATTACKS_KEY, DECISIONS_HISTORY_LIST_KEY] at this
  · rw [hops] at hmem
    simp only [List.mem_cons, List.mem_append] at hmem
    rcases hmem with hmem | hmem | ((hmem | hmem) | hmem)
    · cases hmem
    · simp [UNIQUE_COUNTRIES_SET_KEY, DECISIONS_HASH_KEY] at hmem
    · split_ifs at hmem <;> simp_all
    · have := mem_countryOps_expire hmem
      simp [UNIQUE_COUNTRIES_SET_KEY, COUNTRY_HASH_KEY] at this
    · have := mem_histOps_expire hmem
      simp [UNIQUE_COUNTRIES_SET_KEY, DECISIONS_HISTORY_LIST_KEY] at this
  · rw [hops] at hmem
    simp only [List.mem_cons, List.mem_append] at hmem
    rcases hmem with hmem | hmem | ((hmem | hmem) | hmem)
    · cases hmem
    · simp at hmem; omega
    · split_ifs at hmem <;> simp_all
    · have := mem_countryOps_expire hmem
      simp [DECISIONS_HASH_KEY, COUNTRY_HASH_KEY] at this
    · have := mem_histOps_expire hmem
      simp [DECISIONS_HASH_KEY, DECISIONS_HISTORY_LIST_KEY] at this
  · rw [hops] at hmem
    simp only [List.mem_cons, List.mem_append] at hmem
    rcases hmem with hmem | hmem | ((hmem | hmem) | hmem)
    · cases hmem
    · simp [COUNTRY_HASH_KEY, DECISIONS_HASH_KEY] at hmem
    · split_ifs at hmem <;> simp_all
    · exact (mem_countryOps_expire hmem).2
    · have := mem_histOps_expire hmem
      simp [COUNTRY_HASH_KEY, DECISIONS_HISTORY_LIST_KEY] at this
  · rw [hops] at hmem
    simp only [List.mem_cons, List.mem_append] at hmem
    rcases hmem with hmem | hmem | ((hmem | hmem) | hmem)
    · cases hmem
    · simp [DECISIONS_HISTORY_LIST_KEY, DECISIONS_HASH_KEY] at hmem
    · split_ifs at hmem <;> simp_all
    · have := mem_countryOps_expire hmem
      simp [DECISIONS_HISTORY_LIST_KEY, COUNTRY_HASH_KEY] at this
    · exact (mem_histOps_expire hmem).2

/-- C6 witness: the amended statement evaluated on a failure-free ingest
with country `"US"`. -/
theorem c6_witness :
    ROp.expire DECISIONS_HASH_KEY 20 ∈ (add_decision true [("cn", jstr "US")] "d1" noFail).2 ∧
    ROp.expire COUNTRY_HASH_KEY 86400 ∈ (add_decision true [("cn", jstr "US")] "d1" noFail).2 ∧
    ROp.expire DECISIONS_HISTORY_LIST_KEY 604800
      ∈ (add_decision true [("cn", jstr "US")] "d1" noFail).2 ∧
    ROp.expire TOTAL_ATTACKS_KEY 20 ∉ (add_decision true [("cn", jstr "US")] "d1" noFail).2 ∧
    ROp.expire UNIQUE_COUNTRIES_SET_KEY 20
      ∉ (add_decision true [("cn", jstr "US")] "d1" noFail).2 := by
  obtain ⟨ha, hb, hc, hd, he, -⟩ := c6_amended true [("cn", jstr "US")] "d1" noFail rfl
  exact ⟨ha, hb (jstr "US") rfl rfl rfl rfl, hc rfl rfl, hd 20, he 20⟩

/-- C3: two consecutive polls whose newest item carries the same id lead
to exactly one ingest.  The first cycle, seeing an id different from the
stored last-seen one, ingests the normalized decision and updates the
last-seen id; the second cycle, seeing the identical id again, ingests
nothing (and idles for the short 1.25-second poll interval). -/
theorem c3_duplicate_suppression (s : PollerState) (now₁ now₂ : Int) (env : PollEnv)
    (j item idv src la lo cn : Json)
    (h₁ : renewalDueB s now₁ = false) (h₂ : renewalDueB s now₂ = false)
    (hp : env.poll = .payload j)
    (hi : jIndex0 j = some item)
    (hid : jField item "id" = some idv)
    (hsrc : jField item "source" = some src)
    (hla : jField src "latitude" = some la)
    (hlo : jField src "longitude" = some lo)
    (hcn : jField src "cn" = some cn)
    (hdiff : optJeq s.lastDecisionId idv = false) :
    (pollStep s now₁ env).2.ingest
      = some (pyStr idv, [("latitude", la), ("longitude", lo), ("cn", cn),
          ("timestamp", jstr (String.mk (intChars now₁)))]) ∧
    (pollStep s now₁ env).1.lastDecisionId = some idv ∧
    (pollStep (pollStep s now₁ env).1 now₂ env).2.ingest = none ∧
    (pollStep (pollStep s now₁ env).1 now₂ env).2.sleepMs = some 1250 := by
  have e₁ : pollStep s now₁ env
      = ({ s with lastDecisionId := some idv },
         ⟨false, true, some (pyStr idv, [("latitude", la), ("longitude", lo), ("cn", cn),
            ("timestamp", jstr (String.mk (intChars now₁)))]), none⟩) := by
    simp [pollStep, h₁, hp, hi, hid, hdiff, hsrc, hla, hlo, hcn]
  have h₂' : renewalDueB { s with lastDecisionId := some idv } now₂ = false := h₂
  have hsame : optJeq ({ s with lastDecisionId := some idv }).lastDecisionId idv = true := by
    simp [optJeq, jeq_refl]
  have e₂ : pollStep { s with lastDecisionId := some idv } now₂ env
      = ({ s with lastDecisionId := some idv }, ⟨false, true, none, some 1250⟩) := by
    simp [pollStep, h₂', hp, hi, hid, hsame]
  have e₁' : (pollStep s now₁ env).1 = { s with lastDecisionId := some idv } := by
    rw [e₁]
  refine ⟨?_, ?_, ?_, ?_⟩
  · rw [e₁]
  · rw [e₁]
  · rw [e₁', e₂]
  · rw [e₁', e₂]

/-- C3 witness: the duplicate-suppression theorem evaluated on one
concrete upstream batch observed twice. -/
theorem c3_witness :
    (pollStep ⟨"", none, none⟩ 0
      ⟨none, .payload (jarr [jobj [("id", jnum 7),
        ("source", jobj [("latitude", jnum 48), ("longitude", jnum 2),
          ("cn", jstr "FR")])]])⟩).2.ingest
      = some (pyStr (jnum 7), [("latitude", jnum 48), ("longitude", jnum 2), ("cn", jstr "FR"),
          ("timestamp", jstr (String.mk (intChars 0)))]) ∧
    (pollStep (pollStep ⟨"", none, none⟩ 0
      ⟨none, .payload (jarr [jobj [("id", jnum 7),
        ("source", jobj [("latitude", jnum 48), ("longitude", jnum 2),
          ("cn", jstr "FR")])]])⟩).1 1
      ⟨none, .payload (jarr [jobj [("id", jnum 7),
        ("source", jobj [("latitude", jnum 48), ("longitude", jnum 2),
          ("cn", jstr "FR")])]])⟩).2.ingest = none := by
  obtain ⟨ha, -, hc, -⟩ := c3_duplicate_suppression ⟨"", none, none⟩ 0 1
    ⟨none, .payload (jarr [jobj [("id", jnum 7),
      ("source", jobj [("latitude", jnum 48), ("longitude", jnum 2),
        ("cn", jstr "FR")])]])⟩
    (jarr [jobj [("id", jnum 7),
      ("source", jobj [("latitude", jnum 48), ("longitude", jnum 2),
        ("cn", jstr "FR")])]])
    (jobj [("id", jnum 7),
      ("source", jobj [("latitude", jnum 48), ("longitude", jnum 2),
        ("cn", jstr "FR")])])
    (jnum 7)
    (jobj [("latitude", jnum 48), ("longitude", jnum 2), ("cn", jstr "FR")])
    (jnum 48) (jnum 2) (jstr "FR")
    rfl rfl rfl rfl rfl rfl rfl rfl rfl rfl
  exact ⟨ha, hc⟩

/-- The property of claim C4 as stated: a successful poll whose batch is
empty or malformed causes no ingest and a short 1.25-second wait. -/
def ClaimC4 : Prop :=
  ∀ (s : PollerState) (now : Int) (env : PollEnv) (j : Json),
    renewalDueB s now = false → env.poll = .payload j → jIndex0 j = none →
      (pollStep s now env).2.ingest = none ∧
      (pollStep s now env).2.sleepMs = some 1250

/-- C4 counterexample: an empty batch raises `IndexError` at
`json_data[0]`, which the generic exception handler turns into the
5-second backoff, not the 1.25-second idle-poll interval. -/
theorem c4_counterexample : ¬ ClaimC4 := by
  intro h
  have h2 := (h ⟨"", none, none⟩ 0 ⟨none, .payload (jarr [])⟩ (jarr []) rfl rfl rfl).2
  exact Option.noConfusion h2 (fun h3 => by cases h3)

/-- C4 amended: a successful poll whose body is not JSON, whose batch is
empty or not an array, or whose newest item lacks an `id` performs no
ingest, but waits the generic 5-second error backoff (the failure
surfaces as an exception caught by the loop's handler), not the
1.25-second idle-poll interval, before retrying. -/
theorem c4_amended (s : PollerState) (now : Int) (env : PollEnv)
    (hdue : renewalDueB s now = false) :
    (env.poll = .badJson →
      (pollStep s now env).2.ingest = none ∧
      (pollStep s now env).2.sleepMs = some 5000) ∧
    (∀ j, env.poll = .payload j → jIndex0 j = none →
      (pollStep s now env).2.ingest = none ∧
      (pollStep s now env).2.sleepMs = some 5000) ∧
    (∀ j item, env.poll = .payload j → jIndex0 j = some item →
      jField item "id" = none →
      (pollStep s now env).2.ingest = none ∧
      (pollStep s now env).2.sleepMs = some 5000) := by
  refine ⟨fun hp => ?_, fun j hp hi => ?_, fun j item hp hi hid => ?_⟩
  · simp [pollStep, hdue, hp]
  · simp [pollStep, hdue, hp, hi]
  · simp [pollStep, hdue, hp, hi, hid]

/-- C4 witness: the amended statement evaluated on an empty batch. -/
theorem c4_witness :
    (pollStep ⟨"", none, none⟩ 0 ⟨none, .payload (jarr [])⟩).2.ingest = none ∧
    (pollStep ⟨"", none, none⟩ 0 ⟨none, .payload (jarr [])⟩).2.sleepMs = some 5000 := by
  obtain ⟨-, hb, -⟩ := c4_amended ⟨"", none, none⟩ 0 ⟨none, .payload (jarr [])⟩ rfl
  exact hb (jarr []) rfl rfl

/-- The property of claim C5 as stated: a failed credential renewal is
retried on a later scheduled attempt while polling with the
previously-held token continues in the meantime — concretely, the
iteration following a failed renewal still reaches its poll request. -/
def ClaimC5 : Prop :=
  ∀ (s : PollerState) (now : Int) (env : PollEnv) (now' : Int) (env' : PollEnv),
    renewalDueB s now = true → env.login = none → now ≤ now' →
      (pollStep (pollStep s now env).1 now' env').2.polled = true

/-- C5 counterexample: once the renewal threshold is crossed, a failed
login leaves `KEY_RENEWAL_AT` unchanged, so the next iteration attempts
renewal again and `continue`s past the poll request: polling is halted. -/
theorem c5_counterexample : ¬ ClaimC5 := by
  intro h
  have h2 := h ⟨"tok", some 0, none⟩ 0 ⟨none, .transportFail⟩ 1 ⟨none, .transportFail⟩
    rfl rfl (by omega)
  revert h2
  decide

/-- C5 amended: a failed renewal attempt leaves the whole poller state
(token, renewal deadline, last-seen id) unchanged, skips the poll request
of that iteration (the loop `continue`s), performs no ingest and no
sleep; and since the renewal deadline is unchanged, renewal stays due at
every later instant, so each following iteration repeats the renewal
attempt instead of polling until one succeeds. -/
theorem c5_amended (s : PollerState) (now : Int) (env : PollEnv)
    (hdue : renewalDueB s now = true) (hfail : env.login = none) :
    (pollStep s now env).1 = s ∧
    (pollStep s now env).2.renewAttempted = true ∧
    (pollStep s now env).2.polled = false ∧
    (pollStep s now env).2.ingest = none ∧
    (pollStep s now env).2.sleepMs = none ∧
    (∀ now' : Int, now ≤ now' → renewalDueB s now' = true) := by
  have hstep : pollStep s now env
      = (s, { renewAttempted := true, polled := false, ingest := none, sleepMs := none }) := by
    simp [pollStep, hdue, get_apikey, hfail]
  refine ⟨by rw [hstep], by rw [hstep], by rw [hstep], by rw [hstep], by rw [hstep],
    fun now' hle => ?_⟩
  unfold renewalDueB at hdue ⊢
  cases hk : s.keyRenewalAt with
  | none => rw [hk] at hdue; cases hdue
  | some t =>
    rw [hk] at hdue
    have hd : now ≥ t - 300 := by simpa using hdue
    have : now' ≥ t - 300 := by omega
    simpa using this

/-- C5 witness: the amended statement evaluated at a due renewal whose
login exchange fails. -/
theorem c5_witness :
    (pollStep ⟨"tok", some 0, none⟩ 0 ⟨none, .transportFail⟩).1 = ⟨"tok", some 0, none⟩ ∧
    (pollStep ⟨"tok", some 0, none⟩ 0 ⟨none, .transportFail⟩).2.polled = false ∧
    renewalDueB ⟨"tok", some 0, none⟩ 5 = true := by
  obtain ⟨h1, -, h3, -, -, h6⟩ :=
    c5_amended ⟨"tok", some 0, none⟩ 0 ⟨none, .transportFail⟩ rfl rfl
  exact ⟨h1, h3, h6 5 (by omega)⟩

/-! ### Claim C7: pagination bounds -/

theorem zrevrange_length_le (l : List String) (offset lim : Int) (h0 : 1 ≤ lim) :
    (zrevrange l offset (offset + lim - 1)).length ≤ lim.toNat := by
  unfold zrevrange zrIdx
  split_ifs
  all_goals try simp only [List.length_nil]
  all_goals try rw [List.length_take, List.length_drop, List.length_reverse]
  all_goals omega

theorem zrevrange_offset_ge (l : List String) (offset stop : Int)
    (h : (l.length : Int) ≤ offset) : zrevrange l offset stop = [] := by
  unfold zrevrange zrIdx
  split_ifs <;> first | rfl | (exfalso; omega)

/-- The property of claim C7 as stated: for every requested limit and
offset, the history read returns at most 1000 entries, and an offset at
or beyond the current history length yields an empty result. -/
def ClaimC7 : Prop :=
  ∀ (st : Store) (limit offset : Int),
    (get_decision_history (.ok st) limit offset).length ≤ 1000 ∧
    ((st.history.length : Int) ≤ offset → get_decision_history (.ok st) limit offset = [])

theorem filterMap_replicate_some {α β : Type} (f : α → Option β) (a : α) (b : β)
    (hf : f a = some b) : ∀ n, ((List.replicate n a).filterMap f).length = n := by
  intro n
  induction n with
  | zero => rfl
  | succ n ih => simp [List.replicate_succ, List.filterMap_cons, hf, ih]

/-- C7 counterexample: `limit = 0` slips past the `min(limit, 1000)`
clamp and makes the read issue `ZREVRANGE history 0 -1`, whose `-1` stop
index means "last element" — the whole history comes back, here 1001
entries. -/
theorem c7_counterexample : ¬ ClaimC7 := by
  intro h
  have h1 := (h ⟨[], [], none, [], List.replicate 1001 "a:1"⟩ 0 0).1
  have h2 : (get_decision_history (.ok ⟨[], [], none, [], List.replicate 1001 "a:1"⟩) 0 0).length
      = 1001 := by
    show ((zrevrange (List.replicate 1001 "a:1") 0 (0 + min (0 : Int) 1000 - 1)).filterMap
      parseHistoryItem).length = 1001
    have hz : zrevrange (List.replicate 1001 "a:1") 0 (0 + min (0 : Int) 1000 - 1)
        = (List.replicate 1001 "a:1").reverse := by
      rw [show (0 + min (0 : Int) 1000 - 1) = -1 by norm_num]
      unfold zrevrange zrIdx
      norm_num
      decide
    rw [hz, List.reverse_replicate]
    exact filterMap_replicate_some parseHistoryItem "a:1" (String.mk ['a'], jnum 1) rfl 1001
  omega

/-- C7 amended: for every limit of at least 1, the history read returns
at most 1000 entries (larger limits are clamped to 1000); and for every
offset at or beyond the current history length it returns an empty
sequence, not an error, whatever the limit.  A non-positive limit,
however, escapes the clamp via Redis negative-index semantics. -/
theorem c7_amended (st : Store) (limit offset : Int) :
    (1 ≤ limit → (get_decision_history (.ok st) limit offset).length ≤ 1000) ∧
    ((st.history.length : Int) ≤ offset → get_decision_history (.ok st) limit offset = []) := by
  constructor
  · intro h1
    show ((zrevrange st.history offset (offset + min limit 1000 - 1)).filterMap
      parseHistoryItem).length ≤ 1000
    refine le_trans (List.length_filterMap_le _ _) ?_
    refine le_trans (zrevrange_length_le st.history offset (min limit 1000) (by omega)) ?_
    omega
  · intro h2
    show (zrevrange st.history offset (offset + min limit 1000 - 1)).filterMap
      parseHistoryItem = []
    rw [zrevrange_offset_ge st.history offset _ h2]
    rfl

/-- C7 witness: a two-entry history with `limit = 5, offset = 9999`
returns the empty sequence, and a large clamped limit respects the
1000-entry bound. -/
theorem c7_witness :
    (get_decision_history (.ok ⟨[], [], none, [], ["a:1", "b:2"]⟩) 1000000 0).length ≤ 1000 ∧
    get_decision_history (.ok ⟨[], [], none, [], ["a:1", "b:2"]⟩) 5 9999 = [] := by
  obtain ⟨h1, h2⟩ := c7_amended ⟨[], [], none, [], ["a:1", "b:2"]⟩ 1000000 0
  obtain ⟨-, h4⟩ := c7_amended ⟨[], [], none, [], ["a:1", "b:2"]⟩ 5 9999
  exact ⟨h1 (by norm_num), h4 (by norm_num)⟩

/-! ### Claim C10: the history member format -/

theorem splitFirstColon_append (pre : List Char) (h : ':' ∉ pre) (rest : List Char) :
    splitFirstColon (pre ++ ':' :: rest) = (pre, some rest) := by
  induction pre with
  | nil => simp [splitFirstColon]
  | cons c cs ih =>
    have hc : c ≠ ':' := fun hc => h (by simp [hc])
    have hmem : ':' ∉ cs := fun hm => h (by simp [hm])
    simp [splitFirstColon, hc, ih hmem]

theorem colon_split (xs : List Char) (h : ':' ∈ xs) :
    ∃ p q, xs = p ++ ':' :: q ∧ ':' ∉ p := by
  induction xs with
  | nil => cases h
  | cons c cs ih =>
    by_cases hc : c = ':'
    · exact ⟨[], cs, by simp [hc], by simp⟩
    · have hm : ':' ∈ cs := by
        rcases List.mem_cons.mp h with h' | h'
        · exact absurd h'.symm hc
        · exact h'
      obtain ⟨p, q, hpq, hp⟩ := ih hm
      refine ⟨c :: p, q, by simp [hpq], ?_⟩
      simp only [List.mem_cons, not_or]
      exact ⟨Ne.symm hc, hp⟩

theorem historyMember_data (id : String) (data : List (String × Json)) :
    (historyMember id data).data = id.data ++ ':' :: render (jobj data) := by
  show (id ++ ":" ++ dumps (jobj data)).data = id.data ++ ':' :: render (jobj data)
  rw [String.data_append, String.data_append]
  have h1 : (":" : String).data = [':'] := by decide
  have h2 : (dumps (jobj data)).data = render (jobj data) := rfl
  rw [h1, h2]
  simp

theorem parseHistoryItem_roundtrip (id : String) (data : List (String × Json))
    (h : ':' ∉ id.data) :
    parseHistoryItem (historyMember id data) = some (id, jobj data) := by
  unfold parseHistoryItem
  rw [historyMember_data, splitFirstColon_append id.data h (render (jobj data))]
  simp only [loadsL_render]

theorem parseHistoryItem_skip (id : String) (data : List (String × Json))
    (h : ':' ∈ id.data) :
    parseHistoryItem (historyMember id data) = none := by
  obtain ⟨p, q, hpq, hp⟩ := colon_split id.data h
  unfold parseHistoryItem
  rw [historyMember_data, hpq]
  rw [show (p ++ ':' :: q) ++ ':' :: render (jobj data)
    = p ++ ':' :: (q ++ ':' :: render (jobj data)) by simp]
  rw [splitFirstColon_append p hp]
  simp only [loadsL_colon_obj]

/-- C10: a history entry stored by `_add_to_history` as
`id + ":" + json.dumps(payload)` and read back by
`get_decision_history`'s split-at-first-colon parsing recovers exactly
the original `(id, payload)` pair whenever the id contains no `':'`; an
id containing `':'` makes the stored entry fail to parse on read, so it
is skipped. -/
theorem c10_history_member_format (id : String) (data : List (String × Json)) :
    (':' ∉ id.data →
      get_decision_history (.ok ⟨[], [], none, [], [historyMember id data]⟩) 100 0
        = [(id, jobj data)]) ∧
    (':' ∈ id.data →
      get_decision_history (.ok ⟨[], [], none, [], [historyMember id data]⟩) 100 0
        = []) := by
  have hz : zrevrange [historyMember id data] 0 (0 + min (100 : Int) 1000 - 1)
      = [historyMember id data] := by
    unfold zrevrange zrIdx
    norm_num
  constructor
  · intro h
    show (zrevrange [historyMember id data] 0 (0 + min (100 : Int) 1000 - 1)).filterMap
      parseHistoryItem = [(id, jobj data)]
    rw [hz]
    simp [List.filterMap_cons, parseHistoryItem_roundtrip id data h]
  · intro h
    show (zrevrange [historyMember id data] 0 (0 + min (100 : Int) 1000 - 1)).filterMap
      parseHistoryItem = []
    rw [hz]
    simp [List.filterMap_cons, parseHistoryItem_skip id data h]

/-- C10 witness: the colon-free id `"d42"` round-trips; the id `"a:b"`
is skipped on read. -/
theorem c10_witness :
    get_decision_history
        (.ok ⟨[], [], none, [], [historyMember "d42" [("cn", jstr "US")]]⟩) 100 0
      = [("d42", jobj [("cn", jstr "US")])] ∧
    get_decision_history
        (.ok ⟨[], [], none, [], [historyMember "a:b" [("cn", jstr "US")]]⟩) 100 0
      = [] := by
  refine ⟨(c10_history_member_format "d42" [("cn", jstr "US")]).1 (by decide),
    (c10_history_member_format "a:b" [("cn", jstr "US")]).2 (by decide)⟩
